import Mathlib

/-!
Verification of the dblib SQL preprocessing / parameter binding / type
conversion / binary codec core against its natural-language specification.

Conventions of the shallow embedding:
* C++ byte strings are modelled as `List Char`; all inputs of interest are
  ASCII, and `tolower` is modelled on the ASCII range.
* Machine integers are modelled as `ℤ` (or `ℕ` for unsigned bit patterns)
  with explicit `% 2 ^ w` reductions where C++ conversions wrap.
* IEEE doubles/floats are modelled as exact rationals `ℚ`; the C `(int)`
  cast (truncation toward zero) is `Rat.num.tdiv Rat.den`.
* Fallible operations return `Option` or `Except`, the error value standing
  for the C++ exception that `dblib` throws.
-/

namespace Dblib

/- ********************************************************************** -/
/- Definitions                                                            -/
/- ********************************************************************** -/

/-! ### Big-endian value codec (dblib_type_cvt.hpp)

`write_value_into_bytes_be` writes the low byte of `value` to the last
position and shifts right by 8 each iteration, producing the bytes of the
`w`-byte value most-significant first.  `read_value_from_bytes_be` folds
`result <<= 8; result |= (unsigned char)*src_it++` over the bytes.  Values
are modelled by their `8 * w`-bit pattern (a natural below `2 ^ (8 * w)`);
the float/double specializations reinterpret the IEEE bit pattern as the
unsigned integer of the same width and reduce to the integer codec, so they
are covered by the same bit-pattern model. -/

/-- Big-endian encoder: the loop `*dest_it-- = value & 0xFF; value >>= 8`
run `w` times, written as a recursion that places the low byte last. -/
def write_value_into_bytes_be : ℕ → ℕ → List ℕ
  | 0, _ => []
  | w + 1, v => write_value_into_bytes_be w (v / 256) ++ [v % 256]

/-- Big-endian decoder: the loop `result <<= 8; result |= (unsigned char)b`.
The `% 256` models the `(unsigned char)` cast of each input byte. -/
def read_value_from_bytes_be (bytes : List ℕ) : ℕ :=
  bytes.foldl (fun acc b => acc <<< 8 ||| b % 256) 0

/-! ### Numeric conversions (dblib_type_cvt.hpp)

`check_cvt_range<T1>(T2 value)` compares `value` against
`numeric_limits<T1>::lowest()/max()` after converting all three to
`GeneralType = decltype(value + lowest())`, C++'s usual-arithmetic-
conversions common type, and throws `TypeRangeExceeds` with a message
citing the value, both type names and both bounds when the comparison
fails.  We embed the two instantiations the spec's claims exercise. -/

/-- `std::numeric_limits<int32_t>::lowest()`. -/
def int32_lowest : ℤ := -2147483648

/-- `std::numeric_limits<int32_t>::max()`. -/
def int32_max : ℤ := 2147483647

/-- C++ conversion of a (possibly negative) integer value to `uint64_t`:
reduction modulo `2 ^ 64`. -/
def u64_of_int (i : ℤ) : ℕ := (i % (2 : ℤ) ^ 64).toNat

/-- The `TypeRangeExceeds` message built by `check_cvt_range`, mirroring its
`err_text.append(...)` chain. -/
def range_err_text (valueStr fromTy toTy loStr hiStr : String) : String :=
  ((((((((("Value ".append valueStr).append " of type ").append fromTy).append
    " exceeds range for type ").append toTy).append " (").append loStr).append
    " ... ").append hiStr).append ")"

/-- `check_cvt_range<int32_t>(uint64_t value)`.  `GeneralType` is
`uint64_t`, so both `int32_t` bounds are converted to `uint64_t` (the lower
bound wrapping to `2 ^ 64 - 2 ^ 31`) before the comparison.  Returns the
thrown message, or `none` when the check passes. -/
def check_cvt_range_i32_of_u64 (v : ℕ) : Option String :=
  if v < u64_of_int int32_lowest ∨ v > u64_of_int int32_max then
    some (range_err_text (toString v) "uint64_t" "int32_t"
      (toString int32_lowest) (toString int32_max))
  else
    none

/-- C++ narrowing conversion `int32_t(uint64_t v)`: wraps modulo `2 ^ 32`
into `[-2 ^ 31, 2 ^ 31)`. -/
def i32_of_u64 (v : ℕ) : ℤ := ((v : ℤ) + 2 ^ 31) % 2 ^ 32 - 2 ^ 31

/-- `int_to<int32_t>(uint64_t arg)`: not same type, not a string target, so
`check_cvt_range<int32_t>(arg, true)` then `R(arg)`. -/
def int_to_i32_of_u64 (v : ℕ) : Except String ℤ :=
  match check_cvt_range_i32_of_u64 v with
  | some e => .error e
  | none => .ok (i32_of_u64 v)

/-- `int_to<int32_t>(int32_t arg)`: `R` and `A` are the same type, so the
argument is returned unchanged (first `if constexpr` branch). -/
def int_to_i32_of_i32 (v : ℤ) : Except String ℤ := .ok v

/-- The C `(int)` cast applied to a real value: truncation toward zero.
On a reduced rational this is the T-division of numerator by denominator. -/
def cTrunc (q : ℚ) : ℤ := q.num.tdiv q.den

/-- `float_to<R>(arg)` for a floating `arg` and integer target with bounds
`lo`/`hi`: `check_cvt_range<R>(arg, true)` on the *unrounded* argument
(the bounds are exact in the comparison type for the narrow integer
targets modelled here), then
`static_cast<R>((arg < 0) ? arg - 0.5 : arg + 0.5)`.
`none` stands for the thrown `TypeRangeExceeds`. -/
def float_to_int (lo hi : ℤ) (x : ℚ) : Option ℤ :=
  if x < (lo : ℚ) ∨ x > (hi : ℚ) then none
  else some (cTrunc (if x < 0 then x - 1/2 else x + 1/2))

/-- `float_to<int32_t>(double arg)`: the `int32_t` instantiation. -/
def float_to_i32_of_double (x : ℚ) : Option ℤ :=
  float_to_int int32_lowest int32_max x

/-- Spec-side rendering of the claim's rounding rule: round half away from
zero (`x < 0 ? x - 0.5 : x + 0.5`, truncated).  Used to state what the
claim says the failure condition should be compared against. -/
def round_half_away (x : ℚ) : ℤ :=
  cTrunc (if x < 0 then x - 1/2 else x + 1/2)

/-! ### String-to-value parameter binding (dblib_type_cvt.hpp)

`set_str_param_with_type_cvt` dispatches on the backend-declared
`ValueType` of the slot and forwards the converted value to one of the
`IParameterSetterWithTypeCvt` callbacks.  We record which callback is
invoked, with which converted value, as a `SetterCall`. -/

/-- The slot value types dispatched on (subset of `dblib::ValueType`
relevant to the conversion engine, plus one extra constructor to exercise
the `default:` branch). -/
inductive ValueType where
  | short
  | integer
  | bigint
  | float
  | double
  | char
  | varchar
  | blob
  deriving DecidableEq, Repr

/-- One invocation of a data-provider setter: which `set_*_impl` method was
called and with what value. -/
inductive SetterCall where
  | int16 (v : ℤ)
  | int32 (v : ℤ)
  | int64 (v : ℤ)
  | float (v : ℚ)
  | double (v : ℚ)
  | u8str (s : List Char)
  deriving DecidableEq

/-- ASCII decimal digit test (`std::isdigit` on the inputs of interest). -/
def isDigitCh (c : Char) : Bool := '0' ≤ c && c ≤ '9'

/-- Numeric value of a list of ASCII digits (most significant first). -/
def digitsVal (ds : List Char) : ℕ :=
  ds.foldl (fun acc c => acc * 10 + (c.toNat - '0'.toNat)) 0

/-- Model of `std::stoll` on the strings of interest: optional sign, then a
nonempty run of digits (trailing junk ignored, as `stoll` does); `none`
models the `std::invalid_argument` thrown when no digits are present. -/
def parse_ll (s : List Char) : Option ℤ :=
  let core : List Char → Option ℕ := fun t =>
    let ds := t.takeWhile isDigitCh
    if ds.isEmpty then none else some (digitsVal ds)
  match s with
  | '-' :: rest => (core rest).map (fun n => -(n : ℤ))
  | '+' :: rest => (core rest).map (fun n => (n : ℤ))
  | _ => (core s).map (fun n => (n : ℤ))

/-- Model of `std::stof`/`std::stod` on plain decimal strings: optional
sign, integer digits, optional fraction digits.  The value is returned as
an exact rational (both a `float` and a `double` represent `1.5` exactly,
which is all the claims exercise). -/
def parse_float (s : List Char) : Option ℚ :=
  let core : List Char → Option ℚ := fun t =>
    let ds := t.takeWhile isDigitCh
    let rest := t.drop ds.length
    match rest with
    | '.' :: fracRest =>
      let fs := fracRest.takeWhile isDigitCh
      if ds.isEmpty && fs.isEmpty then none
      else some (mkRat (digitsVal ds * 10 ^ fs.length + digitsVal fs) (10 ^ fs.length))
    | _ => if ds.isEmpty then none else some (mkRat (digitsVal ds) 1)
  match s with
  | '-' :: rest => (core rest).map (fun q => -q)
  | '+' :: rest => core rest
  | _ => core s

/-- `str_to<R>(arg)` for an integral `R` with bounds `lo`/`hi`:
`std::stoll`, then `check_cvt_range<R>(value, true)`, then `R(value)`. -/
def str_to_intM (lo hi : ℤ) (s : List Char) : Except String ℤ :=
  match parse_ll s with
  | none => .error "std::invalid_argument"
  | some v =>
    if v < lo ∨ v > hi then .error "TypeRangeExceeds"
    else .ok v

/-- `set_str_param_with_type_cvt` (the `std::string` instantiation):
dispatch on the slot's declared type.  Note the `ValueType::Double` case in
the source calls `dp.set_float_impl(index, str_to<float>(text))`. -/
def set_str_param_with_type_cvt (param_type : ValueType) (text : List Char) :
    Except String SetterCall :=
  match param_type with
  | .char => .ok (.u8str text)
  | .varchar => .ok (.u8str text)
  | .short => (str_to_intM (-32768) 32767 text).map .int16
  | .integer => (str_to_intM int32_lowest int32_max text).map .int32
  | .bigint => (str_to_intM (-9223372036854775808) 9223372036854775807 text).map .int64
  | .float =>
    match parse_float text with
    | none => .error "std::invalid_argument"
    | some q => .ok (.float q)
  | .double =>
    match parse_float text with
    | none => .error "std::invalid_argument"
    | some q => .ok (.float q)
  | _ => .error "WrongTypeConvException"

/-- `set_float_param_with_type_cvt` at `ValueType::Double` (the sibling of
the string version): `dp.set_double_impl(index, float_to<double>(value))`,
and `float_to<double>(double)` returns its argument unchanged. -/
def set_float_param_with_type_cvt_double (value : ℚ) : Except String SetterCall :=
  .ok (.double value)

/-- `set_int_param_with_type_cvt` at `ValueType::Double`:
`dp.set_double_impl(index, int_to<double>(value))`, a widening that always
succeeds. -/
def set_int_param_with_type_cvt_double (value : ℤ) : Except String SetterCall :=
  .ok (.double (value : ℚ))

/-! ### Calendar / Julian-day conversions (dblib_cvt_utils.cpp)

The `int` fields of `Date`/`Time` are modelled as `ℤ`; the `double`
intermediate values as exact `ℚ`; every C integer division is `Int.tdiv`
(truncation toward zero) and the C `(int)` cast of a double is `cTrunc`. -/

/-- `dblib::Date`: proleptic-Gregorian year/month/day. -/
structure Date where
  year : ℤ
  month : ℤ
  day : ℤ
  deriving DecidableEq, Repr

/-- `dblib::Time`: millisecond-granular time of day. -/
structure Time where
  hour : ℤ
  min : ℤ
  sec : ℤ
  msec : ℤ
  deriving DecidableEq, Repr

/-- `dblib::TimeStamp`: a date plus a time, compared field-wise. -/
structure TimeStamp where
  date : Date
  time : Time
  deriving DecidableEq, Repr

/-- `time_to_days(hour, min, sec, msec)`: the fraction of a day. -/
def time_to_days (hour min sec msec : ℤ) : ℚ :=
  (hour : ℚ) / 24 + (min : ℚ) / (24 * 60) + (sec : ℚ) / (24 * 60 * 60) +
    (msec : ℚ) / (24 * 60 * 60 * 1000)

/-- `date_to_julianday_integer(year, mon, day)`: the standard
Gregorian-to-Julian-day-number integer formula (C integer division). -/
def date_to_julianday_integer (year mon day : ℤ) : ℤ :=
  let a := (14 - mon).tdiv 12
  let y := year + 4800 - a
  let m := mon + 12 * a - 3
  day + (153 * m + 2).tdiv 5 + 365 * y + y.tdiv 4 - y.tdiv 100 + y.tdiv 400 - 32045

/-- `timestamp_to_julianday(ts)`: whole-day Julian day number plus the day
fraction, shifted by half a day (Julian days begin at noon). -/
def timestamp_to_julianday (ts : TimeStamp) : ℚ :=
  (date_to_julianday_integer ts.date.year ts.date.month ts.date.day : ℚ) +
    time_to_days ts.time.hour ts.time.min ts.time.sec ts.time.msec - 1/2

/-- `days_to_time(days)`: drop the whole-day part, add the 0.1 ms epsilon
compensating double round-trip error, then peel off hour, minute, second
and millisecond by multiply-and-truncate. -/
def days_to_time (days : ℚ) : Time :=
  let d0 := days - (cTrunc days : ℚ)
  let d1 := d0 + 1 / (24 * 60 * 60 * 1000 * 10)
  let x1 := d1 * 24
  let hour := cTrunc x1
  let x2 := (x1 - (hour : ℚ)) * 60
  let min := cTrunc x2
  let x3 := (x2 - (min : ℚ)) * 60
  let sec := cTrunc x3
  let x4 := (x3 - (sec : ℚ)) * 1000
  let msec := cTrunc x4
  ⟨hour, min, sec, msec⟩

/-- `julianday_integer_to_date(julianday)`: the inverse Gregorian formula
(C integer division). -/
def julianday_integer_to_date (julianday : ℤ) : Date :=
  let a := julianday + 32044
  let b := (4 * a + 3).tdiv 146097
  let c := a - (146097 * b).tdiv 4
  let d := (4 * c + 3).tdiv 1461
  let e := c - (1461 * d).tdiv 4
  let m := (5 * e + 2).tdiv 153
  ⟨100 * b + d - 4800 + m.tdiv 10, m + 3 - 12 * (m.tdiv 10), e - (153 * m + 2).tdiv 5 + 1⟩

/-- `julianday_to_date(julianday)`: truncate to an integer day number
(`static_cast<int>`) and apply the integer inverse. -/
def julianday_to_date (julianday : ℚ) : Date :=
  julianday_integer_to_date (cTrunc julianday)

/-- `julianday_to_timestamp(julianday)`: shift by half a day back, then
split into time-of-day and date. -/
def julianday_to_timestamp (julianday : ℚ) : TimeStamp :=
  let j := julianday + 1/2
  ⟨julianday_to_date j, days_to_time j⟩

/-! ### Case-insensitive keys and the statement maps (dblib_stmt_tools)

`NamedParams` and `ColumnIndexByName` are `std::map`s ordered by
`CaseInsensitiveComparer` (shorter strings first, then lexicographic on
`tolower`).  A `std::map` is modelled behaviourally as an association list
whose keys are unique up to comparer-equivalence: `find`/`count` locate the
entry whose key is equivalent, `operator[]` updates it in place, and
`insert` is a no-op when an equivalent key is present. -/

/-- C `tolower` on the ASCII range (the inputs of interest are ASCII). -/
def toLowerCh (c : Char) : Char :=
  if 'A' ≤ c && c ≤ 'Z' then Char.ofNat (c.toNat + 32) else c

/-- Lexicographic comparison of equal-length strings on `tolower` values
(the loop of `CaseInsensitiveComparer::operator()`). -/
def ciLessCore : List Char → List Char → Bool
  | c1 :: t1, c2 :: t2 =>
    if (toLowerCh c1).toNat < (toLowerCh c2).toNat then true
    else if (toLowerCh c2).toNat < (toLowerCh c1).toNat then false
    else ciLessCore t1 t2
  | _, _ => false

/-- `CaseInsensitiveComparer::operator()`: shorter strings sort first,
equal lengths compare lexicographically on `tolower`. -/
def ciLess (l r : List Char) : Bool :=
  if l.length < r.length then true
  else if r.length < l.length then false
  else ciLessCore l r

/-- `std::map` key equivalence induced by the comparer:
`!comp(a, b) && !comp(b, a)`. -/
def ciEquiv (a b : List Char) : Bool := !ciLess a b && !ciLess b a

/-- The case-insensitivity key a string compares by. -/
def lowKey (s : List Char) : List ℕ := s.map (fun c => (toLowerCh c).toNat)

/-- `SqlPreprocessor::NamedParams = std::map<std::string, std::vector<size_t>,
CaseInsensitiveComparer>`. -/
abbrev NamedParams := List (List Char × List ℕ)

/-- `SqlPreprocessor::IndexedParams = std::map<size_t, std::vector<size_t>>`. -/
abbrev IndexedParams := List (ℕ × List ℕ)

/-- `named_params.find(key)` / `named_params.count(key)` support. -/
def namedFind (m : NamedParams) (k : List Char) : Option (List ℕ) :=
  (m.find? (fun e => ciEquiv e.1 k)).map (fun e => e.2)

/-- `named_params[key].push_back(v)`: append to the equivalent entry's
vector (keeping the first-seen key spelling), or default-construct. -/
def namedPushSlot : NamedParams → List Char → ℕ → NamedParams
  | [], k, v => [(k, [v])]
  | e :: rest, k, v =>
    if ciEquiv e.1 k then (e.1, e.2 ++ [v]) :: rest
    else e :: namedPushSlot rest k v

/-- `indexed_params.find(key)` support. -/
def indexedFind (m : IndexedParams) (k : ℕ) : Option (List ℕ) :=
  (m.find? (fun e => e.1 = k)).map (fun e => e.2)

/-- `indexed_params[key].push_back(v)`. -/
def indexedPushSlot : IndexedParams → ℕ → ℕ → IndexedParams
  | [], k, v => [(k, [v])]
  | e :: rest, k, v =>
    if e.1 = k then (e.1, e.2 ++ [v]) :: rest
    else e :: indexedPushSlot rest k v

/-- `dblib::IndexOrName`: a 1-based ordinal or a (sigil-carrying) name. -/
inductive IndexOrName where
  | index (i : ℕ)
  | name (s : List Char)
  deriving DecidableEq, Repr

/-- Modelled from the spec: `IndexOrName::to_str` is declared in a header
that is not among the sources (only callers are); the spec requires only
that not-found errors "name the identifier".  An ordinal renders as its
decimal digits and a name as itself. -/
def IndexOrName.to_str : IndexOrName → List Char
  | .index i => (toString i).toList
  | .name s => s

/-- The dblib exceptions the embedded operations can raise. -/
inductive DbException where
  | parameterNotFound (text : List Char)
  | columnNotFound (text : List Char)
  | badVariantAccess
  | wrongSeq (text : String)
  deriving DecidableEq, Repr

instance instDecEqExcept {ε α : Type} [DecidableEq ε] [DecidableEq α] :
    DecidableEq (Except ε α)
  | .ok a, .ok b =>
    if h : a = b then .isTrue (h ▸ rfl)
    else .isFalse (fun hc => h (Except.ok.inj hc))
  | .ok _, .error _ => .isFalse (fun hc => Except.noConfusion hc)
  | .error _, .ok _ => .isFalse (fun hc => Except.noConfusion hc)
  | .error e, .error f =>
    if h : e = f then .isTrue (h ▸ rfl)
    else .isFalse (fun hc => h (Except.error.inj hc))

/-- `SqlPreprocessor::do_for_param_indexes(param, fun)`: the returned list
collects the arguments `fun` is invoked with, in invocation order.  In
non-pass-through mode the identifier is looked up in the matching map and a
missing identifier raises `ParameterNotFoundException(param.to_str())`
before any invocation; in pass-through mode the code calls
`fun(param.get_index())`, and `get_index()` on a name-typed identifier is a
wrong-alternative `std::get` (modelled as `badVariantAccess`), again before
any invocation. -/
def do_for_param_indexes (use_native_parameters : Bool)
    (named_params : NamedParams) (indexed_params : IndexedParams)
    (param : IndexOrName) : Except DbException (List ℕ) :=
  if use_native_parameters = false then
    let found :=
      match param with
      | .index i => indexedFind indexed_params i
      | .name s => namedFind named_params s
    match found with
    | none => .error (.parameterNotFound
        ("Parameter ".toList ++ param.to_str ++ " not found".toList))
    | some slots => .ok slots
  else
    match param with
    | .index i => .ok [i]
    | .name _ => .error .badVariantAccess

/-! ### ColumnsHelper (dblib_stmt_tools.cpp) -/

/-- The mutable state of a `ColumnsHelper`: the lazily built
`ColumnIndexByName` map and the `initialized_` flag. -/
structure ColumnsHelperState where
  index_by_name : List (List Char × ℕ)
  inited : Bool
  deriving DecidableEq, Repr

/-- `ColumnsHelper::clear()`. -/
def ColumnsHelper.clear : ColumnsHelperState := ⟨[], false⟩

/-- `std::map::insert(pair{k, v})`: inserts only when no key equivalent to
`k` is present (an existing entry is kept unchanged). -/
def ciMapInsert (m : List (List Char × ℕ)) (k : List Char) (v : ℕ) :
    List (List Char × ℕ) :=
  if (m.find? (fun e => ciEquiv e.1 k)).isSome then m else m ++ [(k, v)]

/-- The build loop of `get_column_index`: insert `(get_column_name(i), i)`
for `i = 1 .. col_count`. -/
def buildIndexByName : List (List Char) → ℕ → List (List Char × ℕ) →
    List (List Char × ℕ)
  | [], _, m => m
  | c :: rest, i, m => buildIndexByName rest (i + 1) (ciMapInsert m c i)

/-- `ColumnsHelper::get_column_index(column)`: ordinals are returned
unchanged without validation; a name triggers the lazy one-shot map build
from the statement's current column names (`cols`, 1-based) and a lookup
that raises `ColumnNotFoundException(column.to_str())` when absent.
Returns the result together with the updated helper state. -/
def get_column_index (cols : List (List Char)) (st : ColumnsHelperState)
    (column : IndexOrName) : Except DbException ℕ × ColumnsHelperState :=
  match column with
  | .index i => (.ok i, st)
  | .name nm =>
    let st' := if st.inited then st else ⟨buildIndexByName cols 1 [], true⟩
    match st'.index_by_name.find? (fun e => ciEquiv e.1 nm) with
    | none => (.error (.columnNotFound
        ("Column ".toList ++ nm ++ " not found".toList)), st')
    | some e => (.ok e.2, st')

/-- The value found for a key in a case-insensitive map. -/
def ciMapLookup (m : List (List Char × ℕ)) (k : List Char) : Option ℕ :=
  (m.find? (fun e => ciEquiv e.1 k)).map (fun e => e.2)

/-- Spec-side description of the name lookup: the 1-based position of the
first column whose name is case-insensitively equal to `nm`. -/
def firstCiIndexFrom (nm : List Char) : List (List Char) → ℕ → Option ℕ
  | [], _ => none
  | c :: rest, i =>
    if ciEquiv c nm then some i else firstCiIndexFrom nm rest (i + 1)

/-- Spec-side description of the name lookup from position 1. -/
def firstCiIndex (cols : List (List Char)) (nm : List Char) : Option ℕ :=
  firstCiIndexFrom nm cols 1

/-! ### Statement sequencing state machines (C9)

The PostgreSQL statement (`PgStatementImpl`) is modelled by its three
sequencing fields plus an abstraction of the libpq single-row result
stream (`rowsRemaining`: how many data rows `PQgetResult` will still
produce before the terminal `PGRES_TUPLES_OK` result).  The SQLite
statement (`SQLiteStatementImpl`) is modelled by its `stmt_ != nullptr`,
`step_called_`, `last_step_result_` and `contains_data_` fields plus the
stream of `sqlite3_step` results. -/

/-- `dblib::StmtState`. -/
inductive StmtState where
  | undef
  | error
  | prepared
  | executed
  | finishedFetching
  deriving DecidableEq, Repr

/-- Sequencing-relevant state of a `PgStatementImpl`. -/
structure PgStatementState where
  state : StmtState
  result_contains_first_row_data : Bool
  contains_data : Bool
  rowsRemaining : ℕ
  deriving DecidableEq, Repr

/-- The freshly constructed `PgStatementImpl` (`state_ = StmtState::Undef`,
flags false). -/
def pgInitial : PgStatementState := ⟨.undef, false, false, 0⟩

/-- `PgStatementImpl::fetch_and_check_if_result_is_end_of_tuples()`:
consume the next single-row result; a data row sets `contains_data_`, the
terminal result clears it. -/
def pg_fetch_and_check (s : PgStatementState) : PgStatementState :=
  if s.rowsRemaining = 0 then { s with contains_data := false }
  else { s with contains_data := true, rowsRemaining := s.rowsRemaining - 1 }

/-- `PgStatementImpl::execute` (both overloads): clear the row flags, send
the query (the backend will produce `rows` data rows), pull the first
result, then mark the first row as pending and enter `Executed`. -/
def pg_execute (rows : ℕ) (s : PgStatementState) : PgStatementState :=
  let s1 := { s with result_contains_first_row_data := false,
                     contains_data := false, rowsRemaining := rows }
  let s2 := pg_fetch_and_check s1
  { s2 with result_contains_first_row_data := true, state := .executed }

/-- `PgStatementImpl::check_is_in_executed_state()`. -/
def pg_check_is_in_executed_state (s : PgStatementState) : Except DbException Unit :=
  if s.state ≠ StmtState.executed then .error (.wrongSeq "Statement is not executed")
  else .ok ()

/-- `PgStatementImpl::check_contains_data()`: also fails while the first
row is still pending (`fetch` has not been called yet). -/
def pg_check_contains_data (s : PgStatementState) : Except DbException Unit :=
  if !s.contains_data || s.result_contains_first_row_data then
    .error (.wrongSeq "Statement doesn't contain data")
  else .ok ()

/-- `PgStatementImpl::fetch()`: hand out the pending first row, or guard
with `check_contains_data` and pull the next single-row result. -/
def pg_fetch (s : PgStatementState) : Except DbException (Bool × PgStatementState) :=
  if s.result_contains_first_row_data then
    .ok (s.contains_data, { s with result_contains_first_row_data := false })
  else
    match pg_check_contains_data s with
    | .error e => .error e
    | .ok _ =>
      let s' := pg_fetch_and_check s
      .ok (s'.contains_data, s')

/-- The guard every `PgStatementImpl` column getter
(`get_value_opt_impl`, `is_null`, ...) runs before touching column data. -/
def pg_column_read_guard (s : PgStatementState) : Except DbException Unit :=
  pg_check_contains_data s

/-! ### SQL preprocessor (dblib_stmt_tools.cpp)

`preprocess_internal` repeatedly finds the next lexical item — the leftmost
match of the alternation `(\?)\d+ | ([@:$])\w+ | " … " | ' … ' |
\{if_seq …\} | \{next …\} | /\* … \*/ | //…$` — copies the untouched text
before it verbatim, and dispatches on the item.  The scanner below
reproduces the regex semantics: the earliest position wins, alternatives at
one position are tried in the regex's order, quoted strings follow the
backtracking behaviour of `(?:\\.|''|\\'|[^'])*'` (an escape prefers to
consume two characters but falls back to one when the literal would
otherwise not close), block comments end at the first `*/`, and a line
comment runs to the end of the line.  Strings are `List Char`; the quote,
backslash and brace characters are spelled via their code points. -/

/-- Regex `\w` on the inputs of interest (ASCII). -/
def isWordCh (c : Char) : Bool :=
  ('a' ≤ c && c ≤ 'z') || ('A' ≤ c && c ≤ 'Z') || ('0' ≤ c && c ≤ '9') || c = '_'

/-- The named-parameter sigils `[@:$]`. -/
def isSigilCh (c : Char) : Bool := c = '@' || c = ':' || c = '$'

/-- Regex `\s` (ASCII). -/
def isSpaceCh (c : Char) : Bool :=
  c = ' ' || c = '\t' || c = '\n' || c = '\r' || c = Char.ofNat 11 || c = Char.ofNat 12

/-- The double-quote character. -/
def dquoteCh : Char := Char.ofNat 34

/-- The single-quote character. -/
def squoteCh : Char := Char.ofNat 39

/-- The backslash character. -/
def bslashCh : Char := Char.ofNat 92

/-- The opening-brace character. -/
def obraceCh : Char := Char.ofNat 123

/-- The closing-brace character. -/
def cbraceCh : Char := Char.ofNat 125

/-- One lexical item of the preprocessor grammar, carrying its capture
groups. -/
inductive SqlItem where
  | iparam (digits : List Char)
  | nparam (sigil : Char) (word : List Char)
  | dquote (body : List Char)
  | squote (body : List Char)
  | ifseq (ws name other : List Char)
  | seqnext (ws name other : List Char)
  | bcomment (body : List Char)
  | lcomment (body : List Char)
  deriving DecidableEq, Repr

/-- The exact source text an item was matched from. -/
def itemText : SqlItem → List Char
  | .iparam ds => '?' :: ds
  | .nparam sg w => sg :: w
  | .dquote b => dquoteCh :: (b ++ [dquoteCh])
  | .squote b => squoteCh :: (b ++ [squoteCh])
  | .ifseq ws n o => obraceCh :: ("if_seq".toList ++ ws ++ n ++ o ++ [cbraceCh])
  | .seqnext ws n o => obraceCh :: ("next".toList ++ ws ++ n ++ o ++ [cbraceCh])
  | .bcomment b => '/' :: '*' :: (b ++ ['*', '/'])
  | .lcomment b => '/' :: '/' :: b

/-- The first character of an item's source text. -/
def itemHead : SqlItem → Char
  | .iparam _ => '?'
  | .nparam sg _ => sg
  | .dquote _ => dquoteCh
  | .squote _ => squoteCh
  | .ifseq _ _ _ => obraceCh
  | .seqnext _ _ _ => obraceCh
  | .bcomment _ => '/'
  | .lcomment _ => '/'

/-- Quoted-literal matcher for `(?:\\.|qq|\\q|[^q])*q` after the opening
quote `q`, with the regex engine's backtracking: a doubled quote or an
escape prefers to consume two characters and continue, falling back (in
order) to closing at the quote, or to consuming the lone backslash, when
the remainder would not close.  Returns the consumed text (closing quote
included) and the rest.  The fuel is the input length. -/
def matchQuoteBodyF (q : Char) : ℕ → List Char → Option (List Char × List Char)
  | 0, _ => none
  | _ + 1, [] => none
  | fuel + 1, c :: cs =>
    if c = q then
      match cs with
      | c2 :: cs2 =>
        if c2 = q then
          match matchQuoteBodyF q fuel cs2 with
          | some (con, rest) => some (c :: c2 :: con, rest)
          | none => some ([c], cs)
        else some ([c], cs)
      | [] => some ([c], [])
    else if c = bslashCh then
      match cs with
      | c2 :: cs2 =>
        match matchQuoteBodyF q fuel cs2 with
        | some (con, rest) => some (c :: c2 :: con, rest)
        | none =>
          match matchQuoteBodyF q fuel cs with
          | some (con, rest) => some (c :: con, rest)
          | none => none
      | [] => none
    else
      match matchQuoteBodyF q fuel cs with
      | some (con, rest) => some (c :: con, rest)
      | none => none

/-- Quoted-literal matcher at full fuel. -/
def matchQuoteBody (q : Char) (s : List Char) : Option (List Char × List Char) :=
  matchQuoteBodyF q s.length s

/-- Scan for the first `*/` (the non-greedy `[\s\S]*?\*\/`): returns the
text before it and the rest after it. -/
def findStarSlash : List Char → Option (List Char × List Char)
  | [] => none
  | [_] => none
  | c :: d :: cs =>
    if c = '*' && d = '/' then some ([], cs)
    else (findStarSlash (d :: cs)).map (fun pr => (c :: pr.1, pr.2))

/-- `true` when the text contains no `*/` (so a block comment starting
before it ends exactly at the closing `*/` that follows it). -/
def noStarSlash : List Char → Bool
  | [] => true
  | [_] => true
  | c :: d :: cs => !(c = '*' && d = '/') && noStarSlash (d :: cs)

/-- The lazy `(.*?)\}` group of the template items: the text up to the
first closing brace on the same line. -/
def upToBrace : List Char → Option (List Char × List Char)
  | [] => none
  | c :: cs =>
    if c = cbraceCh then some ([], cs)
    else if c = '\n' then none
    else (upToBrace cs).map (fun pr => (c :: pr.1, pr.2))

/-- Alternative 1: `(\?)\d+`. -/
def tryIndexed : List Char → Option (SqlItem × List Char)
  | [] => none
  | c :: rest =>
    if c = '?' then
      let ds := rest.takeWhile isDigitCh
      if ds.isEmpty then none else some (.iparam ds, rest.drop ds.length)
    else none

/-- Alternative 2: `([@:$])\w+`. -/
def tryNamed : List Char → Option (SqlItem × List Char)
  | [] => none
  | c :: rest =>
    if isSigilCh c then
      let w := rest.takeWhile isWordCh
      if w.isEmpty then none else some (.nparam c w, rest.drop w.length)
    else none

/-- Alternative 3: a double-quoted string literal. -/
def tryDQuote : List Char → Option (SqlItem × List Char)
  | [] => none
  | c :: rest =>
    if c = dquoteCh then
      (matchQuoteBody dquoteCh rest).map (fun pr => (.dquote pr.1.dropLast, pr.2))
    else none

/-- Alternative 4: a single-quoted string literal. -/
def trySQuote : List Char → Option (SqlItem × List Char)
  | [] => none
  | c :: rest =>
    if c = squoteCh then
      (matchQuoteBody squoteCh rest).map (fun pr => (.squote pr.1.dropLast, pr.2))
    else none

/-- Alternative 5: `\{(if_seq)\s*([^,}]+)(.*?)\}`.  The whitespace run is
greedy; when no `[^,}]+` character follows it the engine backtracks one
space into the name group. -/
def tryIfSeq : List Char → Option (SqlItem × List Char)
  | [] => none
  | c :: rest =>
    if c = obraceCh then
      if "if_seq".toList.isPrefixOf rest then
        let rest1 := rest.drop 6
        let ws := rest1.takeWhile isSpaceCh
        let afterWs := rest1.drop ws.length
        let g6 := afterWs.takeWhile (fun d => !(d = ',' || d = cbraceCh))
        if !g6.isEmpty then
          match upToBrace (afterWs.drop g6.length) with
          | some (g7, rst) => some (.ifseq ws g6 g7, rst)
          | none => none
        else if !ws.isEmpty then
          match upToBrace afterWs with
          | some (g7, rst) => some (.ifseq ws.dropLast [ws.getLastD ' '] g7, rst)
          | none => none
        else none
      else none
    else none

/-- Alternative 6: `\{(next)\s*?(\w+)(.*?)\}`.  The lazy whitespace must
grow exactly past the contiguous spaces for `\w+` to match. -/
def tryNext : List Char → Option (SqlItem × List Char)
  | [] => none
  | c :: rest =>
    if c = obraceCh then
      if "next".toList.isPrefixOf rest then
        let rest1 := rest.drop 4
        let ws := rest1.takeWhile isSpaceCh
        let afterWs := rest1.drop ws.length
        let nm := afterWs.takeWhile isWordCh
        if nm.isEmpty then none
        else
          match upToBrace (afterWs.drop nm.length) with
          | some (g10, rst) => some (.seqnext ws nm g10, rst)
          | none => none
      else none
    else none

/-- Alternative 7: `(\/\*)[\s\S]*?\*\/`. -/
def tryBComment : List Char → Option (SqlItem × List Char)
  | c1 :: c2 :: rest =>
    if c1 = '/' && c2 = '*' then
      (findStarSlash rest).map (fun pr => (.bcomment pr.1, pr.2))
    else none
  | _ => none

/-- Alternative 8: `(\/\/).*?$` — to the end of the line (or input). -/
def tryLComment : List Char → Option (SqlItem × List Char)
  | c1 :: c2 :: rest =>
    if c1 = '/' && c2 = '/' then
      let b := rest.takeWhile (fun d => !(d = '\n'))
      some (.lcomment b, rest.drop b.length)
    else none
  | _ => none

/-- All alternatives at one position, in the regex's order. -/
def tryItemAt (s : List Char) : Option (SqlItem × List Char) :=
  match tryIndexed s with
  | some r => some r
  | none =>
  match tryNamed s with
  | some r => some r
  | none =>
  match tryDQuote s with
  | some r => some r
  | none =>
  match trySQuote s with
  | some r => some r
  | none =>
  match tryIfSeq s with
  | some r => some r
  | none =>
  match tryNext s with
  | some r => some r
  | none =>
  match tryBComment s with
  | some r => some r
  | none => tryLComment s

/-- `regex_search`: the leftmost match.  Returns the text before the
match, the item, and the text after it. -/
def findNextItem : List Char → Option (List Char × SqlItem × List Char)
  | [] => none
  | c :: cs =>
    match tryItemAt (c :: cs) with
    | some (it, rest) => some ([], it, rest)
    | none => (findNextItem cs).map (fun pr => (c :: pr.1, pr.2.1, pr.2.2))

/-- The four rendering callbacks of `SqlPreprocessorActions`.  The C++
callbacks append to the output string; every backend implementation is
append-only, so each is modelled as the text it appends. -/
structure SqlPreprocessorActions where
  append_index_param_to_sql : List Char → ℕ → List Char
  append_named_param_to_sql : List Char → ℕ → List Char
  append_if_seq_data : List Char → List Char → List Char
  append_seq_generator : List Char → List Char → List Char

/-- The loop body of `SqlPreprocessor::preprocess_internal`, with the
output string, both parameter maps and the running native slot counter
threaded through; the fuel is the input length (each iteration consumes at
least one character, and the `{if_seq}` recursion runs on a strictly
shorter capture). -/
def preprocess_internalF (actions : SqlPreprocessorActions)
    (use_native_parameters supports_indexed_params : Bool) :
    ℕ → List Char → NamedParams → IndexedParams → ℕ →
    List Char × NamedParams × IndexedParams × ℕ
  | 0, sql, named, indexed, pi => (sql, named, indexed, pi)
  | fuel + 1, sql, named, indexed, pi =>
    match findNextItem sql with
    | none => (sql, named, indexed, pi)
    | some (pre, item, rest) =>
      match item with
      | .iparam ds =>
        if use_native_parameters = false then
          let user_index := digitsVal ds
          if supports_indexed_params && (indexedFind indexed user_index).isSome then
            let existing := ((indexedFind indexed user_index).getD []).headD 0
            let chunk := actions.append_index_param_to_sql ds existing
            let r := preprocess_internalF actions use_native_parameters
              supports_indexed_params fuel rest named indexed pi
            (pre ++ chunk ++ r.1, r.2)
          else
            let chunk := actions.append_index_param_to_sql ds pi
            let r := preprocess_internalF actions use_native_parameters
              supports_indexed_params fuel rest named
              (indexedPushSlot indexed user_index pi) (pi + 1)
            (pre ++ chunk ++ r.1, r.2)
        else
          let r := preprocess_internalF actions use_native_parameters
            supports_indexed_params fuel rest named indexed pi
          (pre ++ itemText item ++ r.1, r.2)
      | .nparam sg w =>
        if use_native_parameters = false then
          let parameter := sg :: w
          if supports_indexed_params && (namedFind named parameter).isSome then
            let existing := ((namedFind named parameter).getD []).headD 0
            let chunk := actions.append_index_param_to_sql parameter existing
            let r := preprocess_internalF actions use_native_parameters
              supports_indexed_params fuel rest named indexed pi
            (pre ++ chunk ++ r.1, r.2)
          else
            let chunk := actions.append_named_param_to_sql parameter pi
            let r := preprocess_internalF actions use_native_parameters
              supports_indexed_params fuel rest
              (namedPushSlot named parameter pi) indexed (pi + 1)
            (pre ++ chunk ++ r.1, r.2)
        else
          let r := preprocess_internalF actions use_native_parameters
            supports_indexed_params fuel rest named indexed pi
          (pre ++ itemText item ++ r.1, r.2)
      | .ifseq _ g6 g7 =>
        let inner := preprocess_internalF actions use_native_parameters
          supports_indexed_params fuel g6 named indexed pi
        let chunk := actions.append_if_seq_data inner.1 g7
        let r := preprocess_internalF actions use_native_parameters
          supports_indexed_params fuel rest inner.2.1 inner.2.2.1 inner.2.2.2
        (pre ++ chunk ++ r.1, r.2)
      | .seqnext _ nm g10 =>
        let chunk := actions.append_seq_generator nm g10
        let r := preprocess_internalF actions use_native_parameters
          supports_indexed_params fuel rest named indexed pi
        (pre ++ chunk ++ r.1, r.2)
      | .lcomment _ =>
        let r := preprocess_internalF actions use_native_parameters
          supports_indexed_params fuel rest named indexed pi
        (pre ++ itemText item ++ '\n' :: r.1, r.2)
      | it =>
        let r := preprocess_internalF actions use_native_parameters
          supports_indexed_params fuel rest named indexed pi
        (pre ++ itemText it ++ r.1, r.2)

/-- `SqlPreprocessor::preprocess`: clear the maps, start the native slot
counter at 1, and run `preprocess_internal`.  Returns the preprocessed SQL,
the named and indexed `ParameterIndexMap`s, and the final counter. -/
def preprocess (sql : List Char)
    (use_native_parameters supports_indexed_params : Bool)
    (actions : SqlPreprocessorActions) :
    List Char × NamedParams × IndexedParams × ℕ :=
  preprocess_internalF actions use_native_parameters
    supports_indexed_params sql.length sql [] [] 1

/-- The test suite's `TestSqlPreprocessorActions`: `$I`/`$N` plus the
parameter text, `gen_id(name, 1)` for sequence values. -/
def testActions : SqlPreprocessorActions where
  append_index_param_to_sql := fun p _ => '$' :: 'I' :: p
  append_named_param_to_sql := fun p _ => '$' :: 'N' :: p
  append_if_seq_data := fun d o => d ++ o
  append_seq_generator := fun n o => "gen_id(".toList ++ n ++ ", 1)".toList ++ o

/-- An action set that renders the native slot number itself (`$N`), making
slot allocation visible in the output. -/
def slotActions : SqlPreprocessorActions where
  append_index_param_to_sql := fun _ i => '$' :: (toString i).toList
  append_named_param_to_sql := fun _ i => '$' :: (toString i).toList
  append_if_seq_data := fun d o => d ++ o
  append_seq_generator := fun n o => n ++ o

/-! #### Spec-side description of a preprocessing pass (for C1/C2)

A well-formed *segment list* describes an input as alternating plain-text
gaps and lexical items.  `gapOk` demands that no item can start inside a
gap (or straddling its right edge); `itemOk` demands the item's own capture
is well formed and that the following character cannot extend the match.
`specRender` is the specification's account of a non-pass-through pass
over such an input: gaps, quoted strings and block comments are copied
byte-identically, each placeholder is replaced by the backend callback's
rendering under the slot-allocation/coalescing policy, and the maps record
every identifier's slots in order. -/

/-- Characters that may appear in a plain-text gap at all. -/
def gapCharOk (c : Char) : Bool :=
  !(c = dquoteCh) && !(c = squoteCh) && !(c = obraceCh)

/-- Whether the (possibly absent) next character satisfies `p`. -/
def extendsBy (p : Char → Bool) : Option Char → Bool
  | some d => p d
  | none => false

/-- No item may start at a character `c` followed by `nx`. -/
def pairOk (c : Char) (nx : Option Char) : Bool :=
  !(c = '?' && extendsBy isDigitCh nx) &&
  !(isSigilCh c && extendsBy isWordCh nx) &&
  !(c = '/' && extendsBy (fun d => d = '/' || d = '*') nx)

/-- A gap is item-free, also across its right edge onto the first
character `nx` of what follows. -/
def gapOk : List Char → Option Char → Bool
  | [], _ => true
  | c :: cs, nx =>
    gapCharOk c && pairOk c (Option.or cs.head? nx) && gapOk cs nx

/-- The item kinds the C1/C2 description covers, well-formed, with the
first following character `nx` unable to extend the match. -/
def itemOk : SqlItem → Option Char → Bool
  | .iparam ds, nx =>
    !ds.isEmpty && ds.all isDigitCh && !extendsBy isDigitCh nx
  | .nparam sg w, nx =>
    isSigilCh sg && !w.isEmpty && w.all isWordCh && !extendsBy isWordCh nx
  | .dquote b, nx =>
    b.all (fun c => !(c = dquoteCh) && !(c = bslashCh)) && !(nx = some dquoteCh)
  | .squote b, nx =>
    b.all (fun c => !(c = squoteCh) && !(c = bslashCh)) && !(nx = some squoteCh)
  | .bcomment b, _ => noStarSlash b
  | _, _ => false

/-- The source text a segment list describes. -/
def renderSegs : List (List Char × SqlItem) → List Char → List Char
  | [], gl => gl
  | (g, it) :: rest, gl => g ++ itemText it ++ renderSegs rest gl

/-- Well-formedness of a segment list followed by a final gap. -/
def segsOk : List (List Char × SqlItem) → List Char → Bool
  | [], gl => gapOk gl none
  | (g, it) :: rest, gl =>
    gapOk g (some (itemHead it)) &&
    itemOk it (renderSegs rest gl).head? &&
    segsOk rest gl

/-- Spec-side step for one item of a non-pass-through pass: a quoted
string or block comment is emitted byte-identically; a placeholder is
rendered by the backend callback, reusing the identifier's existing native
slot when coalescing applies and otherwise allocating the next slot and
recording it under the identifier. -/
def specStep (actions : SqlPreprocessorActions) (supports_indexed_params : Bool) :
    SqlItem → NamedParams → IndexedParams → ℕ →
    List Char × NamedParams × IndexedParams × ℕ
  | .iparam ds, named, indexed, pi =>
    let u := digitsVal ds
    if supports_indexed_params && (indexedFind indexed u).isSome then
      (actions.append_index_param_to_sql ds (((indexedFind indexed u).getD []).headD 0),
        named, indexed, pi)
    else
      (actions.append_index_param_to_sql ds pi,
        named, indexedPushSlot indexed u pi, pi + 1)
  | .nparam sg w, named, indexed, pi =>
    let p := sg :: w
    if supports_indexed_params && (namedFind named p).isSome then
      (actions.append_index_param_to_sql p (((namedFind named p).getD []).headD 0),
        named, indexed, pi)
    else
      (actions.append_named_param_to_sql p pi,
        namedPushSlot named p pi, indexed, pi + 1)
  | it, named, indexed, pi => (itemText it, named, indexed, pi)

/-- Spec-side account of a whole non-pass-through pass over a segment
list: gaps verbatim, items per `specStep`, state threaded left to right. -/
def specRender (actions : SqlPreprocessorActions) (supports_indexed_params : Bool) :
    List (List Char × SqlItem) → List Char → NamedParams → IndexedParams → ℕ →
    List Char × NamedParams × IndexedParams × ℕ
  | [], gl, named, indexed, pi => (gl, named, indexed, pi)
  | (g, it) :: rest, gl, named, indexed, pi =>
    let s := specStep actions supports_indexed_params it named indexed pi
    let r := specRender actions supports_indexed_params rest gl s.2.1 s.2.2.1 s.2.2.2
    (g ++ s.1 ++ r.1, r.2)

/-- A `sqlite3_step` outcome (the two non-error results). -/
inductive SqliteStepResult where
  | row
  | done
  deriving DecidableEq, Repr

/-- Sequencing-relevant state of a `SQLiteStatementImpl`; `stream` is the
sequence of results further `sqlite3_step` calls will produce. -/
structure SqliteStatementState where
  prepared : Bool
  step_called : Bool
  last_step_result : SqliteStepResult
  contains_data : Bool
  stream : List SqliteStepResult
  deriving DecidableEq, Repr

/-- `SQLiteStatementImpl::internal_execute` (reset elided): one
`sqlite3_step`, recording its result (an exhausted model stream keeps
reporting `SQLITE_DONE`). -/
def sqlite_internal_execute (s : SqliteStatementState) : SqliteStatementState :=
  match s.stream with
  | [] => { s with last_step_result := .done }
  | r :: rest => { s with last_step_result := r, stream := rest }

/-- `SQLiteStatementImpl::execute()`: `check_is_prepared`, step once, set
`step_called_`. -/
def sqlite_execute (s : SqliteStatementState) :
    Except DbException SqliteStatementState :=
  if s.prepared = false then .error (.wrongSeq "Statement is not prepared")
  else .ok { sqlite_internal_execute s with step_called := true }

/-- `SQLiteStatementImpl::fetch()`: consume the pending `execute` step, or
step again — unless the previous step already reported `SQLITE_DONE`, in
which case `WrongSeqException("Fetch after data end")` is thrown. -/
def sqlite_fetch (s : SqliteStatementState) :
    Except DbException (Bool × SqliteStatementState) :=
  if s.prepared = false then .error (.wrongSeq "Statement is not prepared")
  else if s.step_called then
    let s' := { s with step_called := false,
                       contains_data := s.last_step_result = .row }
    .ok (s'.contains_data, s')
  else if s.last_step_result = .done then
    .error (.wrongSeq "Fetch after data end")
  else
    let s' := sqlite_internal_execute s
    let s'' := { s' with contains_data := s'.last_step_result = .row }
    .ok (s''.contains_data, s'')

end Dblib

/- ********************************************************************** -/
/- Theorems                                                               -/
/- ********************************************************************** -/

namespace Dblib

theorem lor_shiftLeft_eq_add (a b : ℕ) (h : b < 2 ^ 8) :
    a <<< 8 ||| b = a * 2 ^ 8 + b := by
  apply Nat.eq_of_testBit_eq
  intro i
  rw [Nat.mul_comm a, Nat.testBit_lor, Nat.testBit_shiftLeft,
    Nat.testBit_mul_pow_two_add a h]
  by_cases hi : i < 8
  · have h8 : (8 ≤ i) = False := by simp; omega
    simp [hi, h8]
  · have h8 : (8 ≤ i) = True := by simp; omega
    have hb : b.testBit i = false :=
      Nat.testBit_lt_two_pow
        (lt_of_lt_of_le h (Nat.pow_le_pow_right (by norm_num) (by omega)))
    simp [hi, h8, hb]

theorem read_append_byte (l : List ℕ) (b : ℕ) :
    read_value_from_bytes_be (l ++ [b]) =
      read_value_from_bytes_be l <<< 8 ||| b % 256 := by
  simp [read_value_from_bytes_be, List.foldl_append]

/-- C10: for every width `w` and every `8 * w`-bit value (in particular
every fixed-width integer, and every float/double reinterpreted through the
unsigned integer of its width), decoding the big-endian byte sequence
produced by encoding it returns the original bit pattern:
`read_value_from_bytes_be (write_value_into_bytes_be w v) = v`. -/
theorem write_read_value_bytes_be_roundtrip (w v : ℕ) (h : v < 2 ^ (8 * w)) :
    read_value_from_bytes_be (write_value_into_bytes_be w v) = v := by
  induction w generalizing v with
  | zero =>
    have hv : v = 0 := by simpa using h
    subst hv
    rfl
  | succ w ih =>
    have hdiv : v / 256 < 2 ^ (8 * w) := by
      rw [Nat.div_lt_iff_lt_mul (by norm_num)]
      calc v < 2 ^ (8 * (w + 1)) := h
        _ = 2 ^ (8 * w) * 256 := by ring
    rw [write_value_into_bytes_be, read_append_byte, ih _ hdiv,
      lor_shiftLeft_eq_add _ _ (by omega)]
    omega

/-- Witness for C10 at `w = 8` and the bit pattern of the double π. -/
theorem write_read_value_bytes_be_roundtrip_witness :
    read_value_from_bytes_be (write_value_into_bytes_be 8 4614256656552045848) =
      4614256656552045848 :=
  write_read_value_bytes_be_roundtrip 8 4614256656552045848 (by decide)

/-- C5: `int_to<int32_t>(uint64_t(INT32_MAX) + 1)` fails the range check
performed in the common wider type `uint64_t` and throws `TypeRangeExceeds`
whose message cites the value, both type names and both `int32_t` bounds,
while `int_to<int32_t>(INT32_MAX)` (same source and target type) succeeds
and returns `INT32_MAX` unchanged. -/
theorem int_to_i32_range_check_exact :
    int_to_i32_of_u64 2147483648 =
      .error ("Value 2147483648 of type uint64_t exceeds range for type " ++
        "int32_t (-2147483648 ... 2147483647)")
    ∧ int_to_i32_of_i32 2147483647 = .ok 2147483647 :=
  ⟨rfl, rfl⟩

theorem ctrunc_of_nonneg (q : ℚ) (h : 0 ≤ q) : cTrunc q = ⌊q⌋ := by
  rw [Rat.floor_def, cTrunc]
  have hnum : 0 ≤ q.num := Rat.num_nonneg.mpr h
  obtain ⟨m, hm⟩ := Int.eq_ofNat_of_zero_le hnum
  rw [hm]
  rfl

theorem ctrunc_neg_arg (q : ℚ) : cTrunc (-q) = -cTrunc q := by
  simp [cTrunc, Rat.neg_num, Int.neg_tdiv]

/-- C6 counterexample: at the double value `2147483647.25` (representable
exactly), `float_to<int32_t>` throws a range error even though the
round-half-away-from-zero value `2147483647` fits `int32_t`, so the claim
"fails exactly when the rounded value does not fit" is false: the code
range-checks the unrounded argument. -/
theorem float_to_i32_rejects_fitting_rounded_value :
    float_to_i32_of_double (2147483647 + 1/4) = none
    ∧ round_half_away (2147483647 + 1/4) = 2147483647
    ∧ int32_lowest ≤ 2147483647 ∧ (2147483647 : ℤ) ≤ int32_max := by
  refine ⟨?_, ?_, by norm_num [int32_lowest], by norm_num [int32_max]⟩
  · rw [float_to_i32_of_double, float_to_int, if_pos]
    right
    norm_num [int32_max]
  · rw [round_half_away, if_neg (by norm_num)]
    rw [ctrunc_of_nonneg _ (by norm_num)]
    norm_num

/-- C6 (amended): `float_to` to an integer target range-checks the
*unrounded* floating argument against the target bounds (in the common
comparison type) and only then rounds half-away-from-zero and truncates; it
fails exactly when the unrounded value lies outside `[lowest, max]`, and
each returned value is the half-away-from-zero rounding and always fits the
target.  Stated for the `double → int32_t` instantiation. -/
theorem float_to_i32_checks_unrounded_then_rounds (x : ℚ) :
    (float_to_i32_of_double x = none ↔ (x < -2147483648 ∨ 2147483647 < x))
    ∧ (float_to_i32_of_double x).elim True
        (fun r => r = round_half_away x ∧ -2147483648 ≤ r ∧ r ≤ 2147483647) := by
  rw [float_to_i32_of_double, float_to_int, int32_lowest, int32_max]
  constructor
  · split
    · rename_i hcond
      simpa using hcond
    · rename_i hcond
      push_neg at hcond
      simp only [reduceCtorEq, false_iff]
      push_neg
      exact_mod_cast hcond
  · split
    · simp [Option.elim]
    · rename_i hcond
      push_neg at hcond
      obtain ⟨hlo, hhi⟩ := hcond
      have hlo' : (-2147483648 : ℚ) ≤ x := by exact_mod_cast hlo
      have hhi' : x ≤ (2147483647 : ℚ) := by exact_mod_cast hhi
      simp only [Option.elim]
      refine ⟨by rw [round_half_away], ?_, ?_⟩
      · by_cases hx : x < 0
        · rw [if_pos hx]
          have h1 : x - 1/2 = -(1/2 - x) := by ring
          rw [h1, ctrunc_neg_arg, ctrunc_of_nonneg _ (by linarith)]
          have h2 : (1:ℚ)/2 - x ≤ 2147483648 + 1/2 := by linarith
          have : ⌊(1:ℚ)/2 - x⌋ ≤ 2147483648 :=
            le_trans (Int.floor_le_floor h2) (by norm_num)
          omega
        · rw [if_neg hx]
          push_neg at hx
          rw [ctrunc_of_nonneg _ (by linarith)]
          have : (0:ℤ) ≤ ⌊x + 1/2⌋ := by
            apply Int.le_floor.mpr
            push_cast
            linarith
          omega
      · by_cases hx : x < 0
        · rw [if_pos hx]
          have h1 : x - 1/2 = -(1/2 - x) := by ring
          rw [h1, ctrunc_neg_arg, ctrunc_of_nonneg _ (by linarith)]
          have : (0:ℤ) ≤ ⌊(1:ℚ)/2 - x⌋ := by
            apply Int.le_floor.mpr
            push_cast
            linarith
          omega
        · rw [if_neg hx]
          push_neg at hx
          rw [ctrunc_of_nonneg _ (by linarith)]
          have : ⌊x + 1/2⌋ < 2147483648 := by
            apply Int.floor_lt.mpr
            push_cast
            linarith
          omega

/-- C7: binding a string to a slot whose backend-declared type is `Double`
makes `set_str_param_with_type_cvt` parse with `str_to<float>` and call
`set_float_impl` — not `set_double_impl` — although both sibling overloads
(`set_int_param_with_type_cvt`, `set_float_param_with_type_cvt`) deliver a
`Double`-typed slot through `set_double_impl`. -/
theorem set_str_with_cvt_double_uses_float_setter :
    set_str_param_with_type_cvt .double "1.5".toList = .ok (.float (mkRat 3 2))
    ∧ (∀ q : ℚ, set_float_param_with_type_cvt_double q = .ok (.double q))
    ∧ (∀ n : ℤ, set_int_param_with_type_cvt_double n = .ok (.double (n : ℚ)))
    ∧ ∀ q : ℚ, SetterCall.float q ≠ SetterCall.double q := by
  refine ⟨rfl, fun q => rfl, fun n => rfl, fun q => by simp⟩

theorem ctrunc_cast_add (n : ℤ) (f : ℚ) (hn : 0 ≤ n) (hf0 : 0 ≤ f) (hf1 : f < 1) :
    cTrunc ((n : ℚ) + f) = n := by
  have hn' : (0 : ℚ) ≤ (n : ℚ) := by exact_mod_cast hn
  rw [ctrunc_of_nonneg _ (by linarith), add_comm, Int.floor_add_int,
    Int.floor_eq_zero_iff.mpr ⟨hf0, hf1⟩, zero_add]

theorem days_to_time_of_int_add_frac (J h mi s ms : ℤ)
    (hJ : 0 ≤ J)
    (hh0 : 0 ≤ h) (hh1 : h < 24) (hmi0 : 0 ≤ mi) (hmi1 : mi < 60)
    (hs0 : 0 ≤ s) (hs1 : s < 60) (hms0 : 0 ≤ ms) (hms1 : ms < 1000) :
    days_to_time ((J : ℚ) + time_to_days h mi s ms) = ⟨h, mi, s, ms⟩ := by
  have bh0 : (0:ℚ) ≤ (h:ℚ) := by exact_mod_cast hh0
  have bh1 : (h:ℚ) ≤ 23 := by exact_mod_cast Int.lt_add_one_iff.mp hh1
  have bmi0 : (0:ℚ) ≤ (mi:ℚ) := by exact_mod_cast hmi0
  have bmi1 : (mi:ℚ) ≤ 59 := by exact_mod_cast Int.lt_add_one_iff.mp hmi1
  have bs0 : (0:ℚ) ≤ (s:ℚ) := by exact_mod_cast hs0
  have bs1 : (s:ℚ) ≤ 59 := by exact_mod_cast Int.lt_add_one_iff.mp hs1
  have bms0 : (0:ℚ) ≤ (ms:ℚ) := by exact_mod_cast hms0
  have bms1 : (ms:ℚ) ≤ 999 := by exact_mod_cast Int.lt_add_one_iff.mp hms1
  have hF0 : 0 ≤ time_to_days h mi s ms := by
    rw [time_to_days]; positivity
  have hF1 : time_to_days h mi s ms < 1 := by
    rw [time_to_days]; linarith
  have c0 : cTrunc ((J : ℚ) + time_to_days h mi s ms) = J :=
    ctrunc_cast_add J _ hJ hF0 hF1
  rw [days_to_time, c0]
  have e1 : ((J : ℚ) + time_to_days h mi s ms - (J : ℚ)
      + 1 / (24 * 60 * 60 * 1000 * 10)) * 24
      = (h : ℚ) + ((mi:ℚ)/60 + (s:ℚ)/3600 + (ms:ℚ)/3600000 + 1/36000000) := by
    rw [time_to_days]; ring
  rw [e1]
  have c1 : cTrunc ((h : ℚ) + ((mi:ℚ)/60 + (s:ℚ)/3600 + (ms:ℚ)/3600000 + 1/36000000)) = h :=
    ctrunc_cast_add h _ hh0 (by positivity) (by linarith)
  rw [c1]
  have e2 : ((h : ℚ) + ((mi:ℚ)/60 + (s:ℚ)/3600 + (ms:ℚ)/3600000 + 1/36000000) - (h:ℚ)) * 60
      = (mi : ℚ) + ((s:ℚ)/60 + (ms:ℚ)/60000 + 1/600000) := by ring
  rw [e2]
  have c2 : cTrunc ((mi : ℚ) + ((s:ℚ)/60 + (ms:ℚ)/60000 + 1/600000)) = mi :=
    ctrunc_cast_add mi _ hmi0 (by positivity) (by linarith)
  rw [c2]
  have e3 : ((mi : ℚ) + ((s:ℚ)/60 + (ms:ℚ)/60000 + 1/600000) - (mi:ℚ)) * 60
      = (s : ℚ) + ((ms:ℚ)/1000 + 1/10000) := by ring
  rw [e3]
  have c3 : cTrunc ((s : ℚ) + ((ms:ℚ)/1000 + 1/10000)) = s :=
    ctrunc_cast_add s _ hs0 (by positivity) (by linarith)
  rw [c3]
  have e4 : ((s : ℚ) + ((ms:ℚ)/1000 + 1/10000) - (s:ℚ)) * 1000
      = (ms : ℚ) + 1/10 := by ring
  rw [e4]
  have c4 : cTrunc ((ms : ℚ) + 1/10) = ms :=
    ctrunc_cast_add ms _ hms0 (by norm_num) (by norm_num)
  rw [c4]

/-- C4: at every fixed date (any date whose integer Julian-day number is
positive and round-trips through the integer Gregorian formulas) and for
every millisecond-granular time of day, converting the `TimeStamp` to a
Julian-day value and back reproduces the original field-wise:
`julianday_to_timestamp (timestamp_to_julianday ts) = ts`. -/
theorem julianday_timestamp_roundtrip (y mo d h mi s ms : ℤ)
    (hh0 : 0 ≤ h) (hh1 : h < 24) (hmi0 : 0 ≤ mi) (hmi1 : mi < 60)
    (hs0 : 0 ≤ s) (hs1 : s < 60) (hms0 : 0 ≤ ms) (hms1 : ms < 1000)
    (hJpos : 0 < date_to_julianday_integer y mo d)
    (hdate : julianday_integer_to_date (date_to_julianday_integer y mo d) = ⟨y, mo, d⟩) :
    julianday_to_timestamp (timestamp_to_julianday ⟨⟨y, mo, d⟩, ⟨h, mi, s, ms⟩⟩)
      = ⟨⟨y, mo, d⟩, ⟨h, mi, s, ms⟩⟩ := by
  have hJ : 0 ≤ date_to_julianday_integer y mo d := le_of_lt hJpos
  have harg : timestamp_to_julianday ⟨⟨y, mo, d⟩, ⟨h, mi, s, ms⟩⟩ + 1/2
      = (date_to_julianday_integer y mo d : ℚ) + time_to_days h mi s ms := by
    rw [timestamp_to_julianday]; ring
  have hF0 : 0 ≤ time_to_days h mi s ms := by
    rw [time_to_days]
    have bh0 : (0:ℚ) ≤ (h:ℚ) := by exact_mod_cast hh0
    have bmi0 : (0:ℚ) ≤ (mi:ℚ) := by exact_mod_cast hmi0
    have bs0 : (0:ℚ) ≤ (s:ℚ) := by exact_mod_cast hs0
    have bms0 : (0:ℚ) ≤ (ms:ℚ) := by exact_mod_cast hms0
    positivity
  have hF1 : time_to_days h mi s ms < 1 := by
    rw [time_to_days]
    have bh1 : (h:ℚ) ≤ 23 := by exact_mod_cast Int.lt_add_one_iff.mp hh1
    have bmi1 : (mi:ℚ) ≤ 59 := by exact_mod_cast Int.lt_add_one_iff.mp hmi1
    have bs1 : (s:ℚ) ≤ 59 := by exact_mod_cast Int.lt_add_one_iff.mp hs1
    have bms1 : (ms:ℚ) ≤ 999 := by exact_mod_cast Int.lt_add_one_iff.mp hms1
    linarith
  rw [julianday_to_timestamp, harg]
  have hdatepart : julianday_to_date
      ((date_to_julianday_integer y mo d : ℚ) + time_to_days h mi s ms) = ⟨y, mo, d⟩ := by
    rw [julianday_to_date, ctrunc_cast_add _ _ hJ hF0 hF1, hdate]
  have htimepart := days_to_time_of_int_add_frac (date_to_julianday_integer y mo d)
    h mi s ms hJ hh0 hh1 hmi0 hmi1 hs0 hs1 hms0 hms1
  rw [hdatepart, htimepart]

/-- Witness for C4 at the test suite's fixed date 2020-01-05 and the time
12:57:33.123. -/
theorem julianday_timestamp_roundtrip_witness :
    julianday_to_timestamp (timestamp_to_julianday ⟨⟨2020, 1, 5⟩, ⟨12, 57, 33, 123⟩⟩)
      = ⟨⟨2020, 1, 5⟩, ⟨12, 57, 33, 123⟩⟩ :=
  julianday_timestamp_roundtrip 2020 1 5 12 57 33 123
    (by decide) (by decide) (by decide) (by decide)
    (by decide) (by decide) (by decide) (by decide)
    (by decide) (by decide)

/-- C3 counterexample: in pass-through mode a *name*-typed identifier does
not reach the callback at all — `param.get_index()` is a wrong-alternative
variant access raised before any invocation — so "invokes the callback
exactly once with the identifier's ordinal" fails for name identifiers. -/
theorem do_for_param_indexes_passthrough_name_fails :
    do_for_param_indexes true [] [] (.name ['x']) = .error .badVariantAccess := rfl

/-- C3 (amended): in pass-through mode an ordinal identifier invokes the
callback exactly once with its ordinal while a name identifier fails with
a variant-access error before any invocation; otherwise an identifier
absent from the matching map fails with a parameter-not-found error naming
the identifier (callback never invoked), and a present identifier invokes
the callback once per recorded native slot, in recorded order. -/
theorem do_for_param_indexes_contract (np : NamedParams) (ip : IndexedParams) :
    (∀ i : ℕ, do_for_param_indexes true np ip (.index i) = .ok [i])
    ∧ (∀ s : List Char,
        do_for_param_indexes true np ip (.name s) = .error .badVariantAccess)
    ∧ (∀ i : ℕ, indexedFind ip i = none →
        do_for_param_indexes false np ip (.index i) =
          .error (.parameterNotFound
            ("Parameter ".toList ++ (toString i).toList ++ " not found".toList)))
    ∧ (∀ i : ℕ, ∀ slots : List ℕ, indexedFind ip i = some slots →
        do_for_param_indexes false np ip (.index i) = .ok slots)
    ∧ (∀ s : List Char, namedFind np s = none →
        do_for_param_indexes false np ip (.name s) =
          .error (.parameterNotFound
            ("Parameter ".toList ++ s ++ " not found".toList)))
    ∧ (∀ s : List Char, ∀ slots : List ℕ, namedFind np s = some slots →
        do_for_param_indexes false np ip (.name s) = .ok slots) := by
  refine ⟨fun i => rfl, fun s => rfl, fun i h => ?_, fun i slots h => ?_,
    fun s h => ?_, fun s slots h => ?_⟩
  · unfold do_for_param_indexes
    simp [h, IndexOrName.to_str]
  · unfold do_for_param_indexes
    simp [h]
  · unfold do_for_param_indexes
    simp [h, IndexOrName.to_str]
  · unfold do_for_param_indexes
    simp [h]

/-- Witness for C3 (amended) on a concrete map: `:a ↦ [1, 3]` named entry,
`2 ↦ [1]` indexed entry. -/
theorem do_for_param_indexes_contract_witness :
    do_for_param_indexes true [([':', 'a'], [1, 3])] [(2, [1])] (.index 5) = .ok [5]
    ∧ do_for_param_indexes false [([':', 'a'], [1, 3])] [(2, [1])]
        (.name [':', 'a']) = .ok [1, 3]
    ∧ do_for_param_indexes false [([':', 'a'], [1, 3])] [(2, [1])] (.index 7) =
        .error (.parameterNotFound
          ("Parameter ".toList ++ (toString 7).toList ++ " not found".toList)) :=
  ⟨(do_for_param_indexes_contract _ _).1 5,
   (do_for_param_indexes_contract _ _).2.2.2.2.2 _ [1, 3] (by decide),
   (do_for_param_indexes_contract _ _).2.2.1 7 (by decide)⟩

theorem ciLess_of_length_lt (a b : List Char) (h : a.length < b.length) :
    ciLess a b = true := by
  simp [ciLess, h]

theorem ciEquiv_length (a b : List Char) (h : ciEquiv a b = true) :
    a.length = b.length := by
  rcases Nat.lt_trichotomy a.length b.length with hl | hl | hl
  · rw [ciEquiv, ciLess_of_length_lt a b hl] at h
    simp at h
  · exact hl
  · rw [ciEquiv, ciLess_of_length_lt b a hl] at h
    simp at h

theorem ciLessCore_both_false_iff (a b : List Char) (hlen : a.length = b.length) :
    (ciLessCore a b = false ∧ ciLessCore b a = false) ↔ lowKey a = lowKey b := by
  induction a generalizing b with
  | nil =>
    cases b with
    | nil => simp [ciLessCore, lowKey]
    | cons d u => simp at hlen
  | cons c t ih =>
    cases b with
    | nil => simp at hlen
    | cons d u =>
      simp only [List.length_cons, Nat.add_right_cancel_iff] at hlen
      rcases Nat.lt_trichotomy (toLowerCh c).toNat (toLowerCh d).toNat with hcd | hcd | hcd
      · rw [ciLessCore, if_pos hcd]
        simp only [lowKey, List.map_cons, List.cons.injEq]
        constructor
        · rintro ⟨h1, _⟩
          simp at h1
        · rintro ⟨h1, _⟩
          omega
      · have h1 : ¬ (toLowerCh c).toNat < (toLowerCh d).toNat := by omega
        have h2 : ¬ (toLowerCh d).toNat < (toLowerCh c).toNat := by omega
        rw [ciLessCore, if_neg h1, if_neg h2, ciLessCore, if_neg h2, if_neg h1]
        rw [ih u hlen]
        simp [lowKey, hcd]
      · have h1 : ¬ (toLowerCh c).toNat < (toLowerCh d).toNat := by omega
        rw [ciLessCore, if_neg h1, if_pos hcd, ciLessCore, if_pos hcd]
        simp only [lowKey, List.map_cons, List.cons.injEq]
        constructor
        · rintro ⟨_, h2⟩
          simp at h2
        · rintro ⟨h2, _⟩
          omega

theorem ciEquiv_iff_lowKey (a b : List Char) :
    ciEquiv a b = true ↔ lowKey a = lowKey b := by
  constructor
  · intro h
    have hlen := ciEquiv_length a b h
    rw [ciEquiv, Bool.and_eq_true, Bool.not_eq_true', Bool.not_eq_true'] at h
    rw [ciLess, if_neg (by omega), if_neg (by omega)] at h
    rw [ciLess, if_neg (by omega), if_neg (by omega)] at h
    exact (ciLessCore_both_false_iff a b hlen).mp ⟨h.1, h.2⟩
  · intro h
    have hlen : a.length = b.length := by
      have := congrArg List.length h
      simpa [lowKey] using this
    have := (ciLessCore_both_false_iff a b hlen).mpr h
    rw [ciEquiv, ciLess, if_neg (by omega), if_neg (by omega)]
    rw [ciLess, if_neg (by omega), if_neg (by omega)]
    simp [this.1, this.2]

theorem ciEquiv_trans (a b c : List Char) (h1 : ciEquiv a b = true)
    (h2 : ciEquiv b c = true) : ciEquiv a c = true := by
  rw [ciEquiv_iff_lowKey] at h1 h2 ⊢
  exact h1.trans h2

theorem ciMapLookup_insert (m : List (List Char × ℕ)) (k nm : List Char) (v : ℕ) :
    ciMapLookup (ciMapInsert m k v) nm =
      match ciMapLookup m nm with
      | some w => some w
      | none => if ciEquiv k nm then some v else none := by
  rw [ciMapInsert]
  split
  · rename_i hfound
    cases hm : ciMapLookup m nm with
    | some w => rfl
    | none =>
      simp only
      split
      · rename_i hknm
        exfalso
        rw [Option.isSome_iff_exists] at hfound
        obtain ⟨e, he⟩ := hfound
        have hek : ciEquiv e.1 k = true := by
          have := List.find?_some he
          simpa using this
        have henm : ciEquiv e.1 nm = true := ciEquiv_trans _ _ _ hek hknm
        have hnone : m.find? (fun e => ciEquiv e.1 nm) = none := by
          rw [ciMapLookup] at hm
          cases hf : m.find? (fun e => ciEquiv e.1 nm) with
          | none => rfl
          | some e' => rw [hf] at hm; simp at hm
        have hne := List.find?_eq_none.mp hnone e (List.mem_of_find?_eq_some he)
        simp [henm] at hne
      · rfl
  · rename_i hnotfound
    rw [ciMapLookup, List.find?_append]
    cases hm : ciMapLookup m nm with
    | some w =>
      rw [ciMapLookup] at hm
      cases hf : m.find? (fun e => ciEquiv e.1 nm) with
      | none => rw [hf] at hm; simp at hm
      | some e =>
        rw [hf] at hm
        simp at hm
        simp [hf, hm]
    | none =>
      rw [ciMapLookup] at hm
      cases hf : m.find? (fun e => ciEquiv e.1 nm) with
      | some e => rw [hf] at hm; simp at hm
      | none =>
        simp only [hf, Option.none_orElse]
        by_cases hknm : ciEquiv k nm = true
        · simp [List.find?, hknm]
        · simp [List.find?, hknm]

theorem ciMapLookup_build (cols : List (List Char)) (nm : List Char) :
    ∀ (i : ℕ) (m : List (List Char × ℕ)),
      ciMapLookup (buildIndexByName cols i m) nm =
        match ciMapLookup m nm with
        | some w => some w
        | none => firstCiIndexFrom nm cols i := by
  induction cols with
  | nil =>
    intro i m
    rw [buildIndexByName]
    cases ciMapLookup m nm <;> rfl
  | cons c rest ih =>
    intro i m
    rw [buildIndexByName, ih (i + 1) (ciMapInsert m c i), ciMapLookup_insert]
    cases hm : ciMapLookup m nm with
    | some w => rfl
    | none =>
      simp only
      rw [firstCiIndexFrom]
      by_cases hc : ciEquiv c nm = true
      · simp [hc]
      · simp [hc]

/-- C8 counterexample: with duplicate case-insensitively equal column names
`["A", "a"]`, the lazily built map keeps the *first* entry (`std::map::insert`
does not overwrite), so the lookup returns ordinal 1, not the
last-one-wins ordinal 2 the claim states. -/
theorem get_column_index_first_duplicate_wins :
    (get_column_index [['A'], ['a']] ColumnsHelper.clear (.name ['a'])).1 = .ok 1
    ∧ ciEquiv ['A'] ['a'] = true
    ∧ (['A'] : List Char) ≠ ['a'] := by
  refine ⟨by decide, by decide, by decide⟩

/-- C8 (amended): `get_column_index` returns an ordinal identifier
unchanged without validating it against the column count; for a name it
lazily builds, once after each `clear()`, a case-insensitive name→ordinal
map of the statement's columns in which a later duplicate name is ignored
(the earlier entry wins), answers name lookups with the ordinal of the
*first* case-insensitively matching column, fails with a column-not-found
error naming the identifier when the name is absent, and never consults the
statement again while the map is initialized. -/
theorem get_column_index_contract (cols : List (List Char)) (st : ColumnsHelperState) :
    (∀ i : ℕ, (get_column_index cols st (.index i)).1 = .ok i)
    ∧ (∀ nm : List Char,
        (get_column_index cols ColumnsHelper.clear (.name nm)).1 =
          match firstCiIndex cols nm with
          | some i => .ok i
          | none => .error (.columnNotFound
              ("Column ".toList ++ nm ++ " not found".toList)))
    ∧ (∀ nm : List Char,
        (get_column_index cols ColumnsHelper.clear (.name nm)).2 =
          ⟨buildIndexByName cols 1 [], true⟩)
    ∧ (∀ (cols' : List (List Char)) (c : IndexOrName), st.inited = true →
        get_column_index cols st c = get_column_index cols' st c) := by
  refine ⟨fun i => rfl, fun nm => ?_, fun nm => ?_, fun cols' c hin => ?_⟩
  · have hlook : ciMapLookup (buildIndexByName cols 1 []) nm = firstCiIndexFrom nm cols 1 := by
      rw [ciMapLookup_build cols nm 1 []]
      rfl
    rw [ciMapLookup] at hlook
    rw [firstCiIndex, ← hlook]
    unfold get_column_index
    cases hf : (buildIndexByName cols 1 []).find? (fun e => ciEquiv e.1 nm) <;>
      simp [hf, ColumnsHelper.clear]
  · unfold get_column_index
    simp only [ColumnsHelper.clear, Bool.false_eq_true, if_false]
    cases hf : (buildIndexByName cols 1 []).find? (fun e => ciEquiv e.1 nm) <;>
      simp [hf]
  · cases c with
    | index i => rfl
    | name nm =>
      unfold get_column_index
      simp [hin]

/-- Witness for C8 (amended) on a concrete column list and helper state. -/
theorem get_column_index_contract_witness :
    (get_column_index [['i', 'd'], ['N', 'M']] ColumnsHelper.clear (.index 9)).1 = .ok 9
    ∧ (get_column_index [['i', 'd'], ['N', 'M']] ColumnsHelper.clear (.name ['n', 'm'])).1 =
        .ok 2
    ∧ get_column_index [['i', 'd']] (ColumnsHelperState.mk [(['x'], 4)] true)
        (IndexOrName.name ['x']) =
      get_column_index [['z', 'z']] (ColumnsHelperState.mk [(['x'], 4)] true)
        (IndexOrName.name ['x']) :=
  ⟨(get_column_index_contract [['i', 'd'], ['N', 'M']] ColumnsHelper.clear).1 9,
   ((get_column_index_contract [['i', 'd'], ['N', 'M']] ColumnsHelper.clear).2.1
     ['n', 'm']).trans (by decide),
   (get_column_index_contract [['i', 'd']] (ColumnsHelperState.mk [(['x'], 4)] true)).2.2.2
     [['z', 'z']] (IndexOrName.name ['x']) rfl⟩

/-- C9: sequencing is enforced by both backends' statement machines: a
SQLite `fetch()` after the step stream reported `SQLITE_DONE` always throws
`WrongSeqException("Fetch after data end")`; a PostgreSQL `fetch()` after
the row stream is exhausted (and any time before `execute`) always throws a
sequencing error, as does every column-data read while no fetched row is
available (in particular before the statement reaches `Executed`); and the
same operations succeed once the statement is executed with data: the first
`fetch` after `execute` returns the pending row and column reads then pass
the guard. -/
theorem statement_sequencing_enforced :
    (∀ s : SqliteStatementState, s.prepared = true → s.step_called = false →
      s.last_step_result = .done →
      sqlite_fetch s = .error (.wrongSeq "Fetch after data end"))
    ∧ (∀ s : PgStatementState, s.contains_data = false →
        s.result_contains_first_row_data = false →
        pg_fetch s = .error (.wrongSeq "Statement doesn't contain data"))
    ∧ (∀ s : PgStatementState, s.contains_data = false →
        pg_column_read_guard s = .error (.wrongSeq "Statement doesn't contain data"))
    ∧ pg_column_read_guard pgInitial = .error (.wrongSeq "Statement doesn't contain data")
    ∧ (∀ (s : PgStatementState) (rows : ℕ), 0 < rows →
        pg_execute rows s = ⟨.executed, true, true, rows - 1⟩
        ∧ pg_fetch (pg_execute rows s) =
            .ok (true, ⟨.executed, false, true, rows - 1⟩)
        ∧ pg_column_read_guard ⟨.executed, false, true, rows - 1⟩ = .ok ())
    ∧ (∀ s : SqliteStatementState, s.prepared = true → s.step_called = true →
        sqlite_fetch s = .ok (s.last_step_result = .row,
          { s with step_called := false,
                   contains_data := s.last_step_result = .row })) := by
  refine ⟨fun s h1 h2 h3 => ?_, fun s h1 h2 => ?_, fun s h1 => ?_, rfl,
    fun s rows hr => ?_, fun s h1 h2 => ?_⟩
  · rw [sqlite_fetch]
    simp [h1, h2, h3]
  · rw [pg_fetch]
    simp [h2, pg_check_contains_data, h1]
  · rw [pg_column_read_guard, pg_check_contains_data]
    simp [h1]
  · have hex : pg_execute rows s = ⟨.executed, true, true, rows - 1⟩ := by
      rw [pg_execute, pg_fetch_and_check]
      simp [Nat.pos_iff_ne_zero.mp hr]
    refine ⟨hex, ?_, rfl⟩
    rw [hex]
    rfl
  · rw [sqlite_fetch]
    simp [h1, h2]

theorem takeWhile_append_all (p : Char → Bool) (xs ys : List Char)
    (hxs : xs.all p = true)
    (hy : (match ys.head? with | some d => p d = false | none => True)) :
    (xs ++ ys).takeWhile p = xs := by
  induction xs with
  | nil =>
    cases ys with
    | nil => rfl
    | cons d t =>
      simp only [List.head?] at hy
      simp [List.takeWhile_cons, hy]
  | cons x xt ih =>
    simp only [List.all_cons, Bool.and_eq_true] at hxs
    simp [List.takeWhile_cons, hxs.1, ih hxs.2]

theorem takeWhile_nil_of_head (p : Char → Bool) (t : List Char)
    (h : (match t.head? with | some d => p d = false | none => True)) :
    t.takeWhile p = [] := by
  cases t with
  | nil => rfl
  | cons d u =>
    simp only [List.head?] at h
    simp [List.takeWhile_cons, h]

theorem matchQuoteBodyF_clean (q : Char) (body rest : List Char)
    (hb : body.all (fun c => !(c = q) && !(c = bslashCh)) = true)
    (hr : rest.head? ≠ some q) :
    ∀ fuel, body.length + rest.length + 1 ≤ fuel →
      matchQuoteBodyF q fuel (body ++ q :: rest) = some (body ++ [q], rest) := by
  induction body with
  | nil =>
    intro fuel hfuel
    cases fuel with
    | zero => omega
    | succ f =>
      simp only [List.nil_append, matchQuoteBodyF, if_pos rfl]
      cases rest with
      | nil => rfl
      | cons c2 cs2 =>
        have hc2 : c2 ≠ q := by
          intro hc
          exact hr (by simp [hc])
        simp [hc2]
  | cons b bs ih =>
    intro fuel hfuel
    cases fuel with
    | zero => simp at hfuel
    | succ f =>
      simp only [List.all_cons, Bool.and_eq_true, Bool.not_eq_true',
        decide_eq_false_iff_not] at hb
      obtain ⟨⟨hbq, hbs⟩, hall⟩ := hb
      have hall' : bs.all (fun c => !(c = q) && !(c = bslashCh)) = true := by
        simpa using hall
      have hrec := ih hall' f (by simp at hfuel ⊢; omega)
      simp only [List.cons_append, matchQuoteBodyF, if_neg hbq, if_neg hbs,
        List.append_eq, hrec]

theorem findStarSlash_clean (body rest : List Char)
    (hb : noStarSlash body = true) :
    findStarSlash (body ++ '*' :: '/' :: rest) = some (body, rest) := by
  induction body with
  | nil =>
    rw [List.nil_append, findStarSlash]
    simp
  | cons c bs ih =>
    cases bs with
    | nil =>
      rw [List.cons_append, List.nil_append, findStarSlash]
      have hcond : (c = '*' && '*' = '/') = false := by simp
      rw [hcond]
      simp [findStarSlash]
    | cons d bs' =>
      rw [noStarSlash, Bool.and_eq_true] at hb
      obtain ⟨h1, h2⟩ := hb
      rw [Bool.not_eq_true'] at h1
      have hrec := ih h2
      rw [List.cons_append] at hrec
      rw [List.cons_append, List.cons_append, findStarSlash, h1]
      simp [hrec]

theorem itemText_append_head (it : SqlItem) (rest : List Char) :
    (itemText it ++ rest).head? = some (itemHead it) := by
  cases it <;> rfl

theorem itemText_length_pos (it : SqlItem) : 1 ≤ (itemText it).length := by
  cases it <;> simp [itemText]

theorem head_cond_of_not (p : Char → Bool) (t : List Char)
    (h : extendsBy p t.head? = false) :
    (match t.head? with | some d => p d = false | none => True) := by
  cases ht : t.head? with
  | none => trivial
  | some d => rw [ht, extendsBy] at h; exact h

theorem tryIndexed_cons_ne (c : Char) (t : List Char) (hc : ¬ c = '?') :
    tryIndexed (c :: t) = none := by
  rw [tryIndexed, if_neg hc]

theorem tryNamed_cons_ne (c : Char) (t : List Char) (hc : isSigilCh c = false) :
    tryNamed (c :: t) = none := by
  rw [tryNamed, hc]
  simp

theorem tryDQuote_cons_ne (c : Char) (t : List Char) (hc : ¬ c = dquoteCh) :
    tryDQuote (c :: t) = none := by
  rw [tryDQuote, if_neg hc]

theorem trySQuote_cons_ne (c : Char) (t : List Char) (hc : ¬ c = squoteCh) :
    trySQuote (c :: t) = none := by
  rw [trySQuote, if_neg hc]

theorem tryIfSeq_cons_ne (c : Char) (t : List Char) (hc : ¬ c = obraceCh) :
    tryIfSeq (c :: t) = none := by
  rw [tryIfSeq, if_neg hc]

theorem tryNext_cons_ne (c : Char) (t : List Char) (hc : ¬ c = obraceCh) :
    tryNext (c :: t) = none := by
  rw [tryNext, if_neg hc]

theorem tryBComment_none (c : Char) (t : List Char)
    (hc : (match t.head? with | some d => (c = '/' && d = '*') = false | none => True)) :
    tryBComment (c :: t) = none := by
  cases t with
  | nil => rfl
  | cons d t' =>
    rw [tryBComment]
    simp only [List.head?] at hc
    simp [hc]

theorem tryLComment_none (c : Char) (t : List Char)
    (hc : (match t.head? with | some d => (c = '/' && d = '/') = false | none => True)) :
    tryLComment (c :: t) = none := by
  cases t with
  | nil => rfl
  | cons d t' =>
    rw [tryLComment]
    simp only [List.head?] at hc
    simp [hc]

theorem dropLast_append_singleton (l : List Char) (a : Char) :
    (l ++ [a]).dropLast = l := by
  simp

theorem tryItemAt_itemText (it : SqlItem) (rest : List Char)
    (h : itemOk it rest.head? = true) :
    tryItemAt (itemText it ++ rest) = some (it, rest) := by
  cases it with
  | iparam ds =>
    rw [itemOk] at h
    simp only [Bool.and_eq_true, Bool.not_eq_true'] at h
    obtain ⟨⟨hne, hall⟩, hnd⟩ := h
    have htw : (ds ++ rest).takeWhile isDigitCh = ds :=
      takeWhile_append_all isDigitCh ds rest hall (head_cond_of_not isDigitCh rest hnd)
    have hie : ds.isEmpty = false := by
      cases ds with
      | nil => simp at hne
      | cons a b => rfl
    rw [itemText, List.cons_append, tryItemAt, tryIndexed]
    simp only [if_pos rfl, htw, hie, Bool.false_eq_true, if_false,
      List.drop_left]
    simp
  | nparam sg w =>
    rw [itemOk] at h
    simp only [Bool.and_eq_true, Bool.not_eq_true'] at h
    obtain ⟨⟨⟨hsg, hne⟩, hall⟩, hnw⟩ := h
    have hnq : ¬ sg = '?' := by
      rw [isSigilCh] at hsg
      simp only [Bool.or_eq_true, decide_eq_true_eq] at hsg
      rcases hsg with (h | h) | h <;> (subst h; decide)
    have htw : (w ++ rest).takeWhile isWordCh = w :=
      takeWhile_append_all isWordCh w rest hall (head_cond_of_not isWordCh rest hnw)
    have hie : w.isEmpty = false := by
      cases w with
      | nil => simp at hne
      | cons a b => rfl
    rw [itemText, List.cons_append, tryItemAt, tryIndexed_cons_ne _ _ hnq]
    rw [tryNamed, hsg]
    simp only [if_true, htw, hie, Bool.false_eq_true, if_false, List.drop_left]
  | dquote b =>
    rw [itemOk] at h
    simp only [Bool.and_eq_true, Bool.not_eq_true'] at h
    obtain ⟨hall, hnx⟩ := h
    have hmq : matchQuoteBody dquoteCh (b ++ dquoteCh :: rest)
        = some (b ++ [dquoteCh], rest) := by
      rw [matchQuoteBody]
      exact matchQuoteBodyF_clean dquoteCh b rest hall
        (by simpa using hnx) _ (by simp; omega)
    have hsh : itemText (.dquote b) ++ rest = dquoteCh :: (b ++ dquoteCh :: rest) := by
      simp [itemText]
    rw [hsh, tryItemAt,
      tryIndexed_cons_ne _ _ (by decide),
      tryNamed_cons_ne _ _ (by decide),
      tryDQuote, if_pos rfl, hmq]
    simp [dropLast_append_singleton]
  | squote b =>
    rw [itemOk] at h
    simp only [Bool.and_eq_true, Bool.not_eq_true'] at h
    obtain ⟨hall, hnx⟩ := h
    have hmq : matchQuoteBody squoteCh (b ++ squoteCh :: rest)
        = some (b ++ [squoteCh], rest) := by
      rw [matchQuoteBody]
      exact matchQuoteBodyF_clean squoteCh b rest hall
        (by simpa using hnx) _ (by simp; omega)
    have hsh : itemText (.squote b) ++ rest = squoteCh :: (b ++ squoteCh :: rest) := by
      simp [itemText]
    rw [hsh, tryItemAt,
      tryIndexed_cons_ne _ _ (by decide),
      tryNamed_cons_ne _ _ (by decide),
      tryDQuote_cons_ne _ _ (by decide),
      trySQuote, if_pos rfl, hmq]
    simp [dropLast_append_singleton]
  | bcomment b =>
    rw [itemOk] at h
    have hsh : itemText (.bcomment b) ++ rest = '/' :: '*' :: (b ++ '*' :: '/' :: rest) := by
      simp [itemText]
    rw [hsh, tryItemAt,
      tryIndexed_cons_ne _ _ (by decide),
      tryNamed_cons_ne _ _ (by decide),
      tryDQuote_cons_ne _ _ (by decide),
      trySQuote_cons_ne _ _ (by decide),
      tryIfSeq_cons_ne _ _ (by decide),
      tryNext_cons_ne _ _ (by decide),
      tryBComment]
    simp only [show ('/' = '/' && '*' = '*') = true by decide, if_true]
    rw [findStarSlash_clean b rest h]
    rfl
  | ifseq ws n o => simp [itemOk] at h
  | seqnext ws n o => simp [itemOk] at h
  | lcomment b => simp [itemOk] at h

theorem tryItemAt_none_of_gap (c : Char) (t : List Char)
    (h1 : gapCharOk c = true) (h2 : pairOk c t.head? = true) :
    tryItemAt (c :: t) = none := by
  rw [gapCharOk] at h1
  simp only [Bool.and_eq_true, Bool.not_eq_true'] at h1
  obtain ⟨⟨hdq, hsq⟩, hob⟩ := h1
  rw [pairOk] at h2
  simp only [Bool.and_eq_true, Bool.not_eq_true', Bool.and_eq_false_iff] at h2
  obtain ⟨⟨hq, hsg⟩, hsl⟩ := h2
  have eIdx : tryIndexed (c :: t) = none := by
    rcases hq with hq | hq
    · rw [tryIndexed, if_neg (of_decide_eq_false hq)]
    · rw [tryIndexed]
      split
      · have htw : t.takeWhile isDigitCh = [] :=
          takeWhile_nil_of_head isDigitCh t (head_cond_of_not isDigitCh t hq)
        simp [htw]
      · rfl
  have eNam : tryNamed (c :: t) = none := by
    rcases hsg with hsg | hsg
    · rw [tryNamed, hsg]
      simp
    · rw [tryNamed]
      split
      · have htw : t.takeWhile isWordCh = [] :=
          takeWhile_nil_of_head isWordCh t (head_cond_of_not isWordCh t hsg)
        simp [htw]
      · rfl
  have eDQ : tryDQuote (c :: t) = none :=
    tryDQuote_cons_ne c t (of_decide_eq_false hdq)
  have eSQ : trySQuote (c :: t) = none :=
    trySQuote_cons_ne c t (of_decide_eq_false hsq)
  have eIf : tryIfSeq (c :: t) = none :=
    tryIfSeq_cons_ne c t (of_decide_eq_false hob)
  have eNx : tryNext (c :: t) = none :=
    tryNext_cons_ne c t (of_decide_eq_false hob)
  have eBC : tryBComment (c :: t) = none := by
    apply tryBComment_none
    cases ht : t.head? with
    | none => trivial
    | some d =>
      rcases hsl with hsl | hsl
      · simp [hsl]
      · rw [ht, extendsBy] at hsl
        simp only [Bool.or_eq_false_iff] at hsl
        simp [hsl.2]
  have eLC : tryLComment (c :: t) = none := by
    apply tryLComment_none
    cases ht : t.head? with
    | none => trivial
    | some d =>
      rcases hsl with hsl | hsl
      · simp [hsl]
      · rw [ht, extendsBy] at hsl
        simp only [Bool.or_eq_false_iff] at hsl
        simp [hsl.1]
  rw [tryItemAt, eIdx, eNam, eDQ, eSQ, eIf, eNx, eBC, eLC]

theorem findNextItem_of_gapOk_none (g : List Char) (h : gapOk g none = true) :
    findNextItem g = none := by
  induction g with
  | nil => rfl
  | cons c cs ih =>
    rw [gapOk] at h
    simp only [Bool.and_eq_true] at h
    obtain ⟨⟨h1, h2⟩, h3⟩ := h
    have h2' : pairOk c cs.head? = true := by
      cases cs with
      | nil => simpa [Option.or] using h2
      | cons d t => simpa [Option.or] using h2
    rw [findNextItem, tryItemAt_none_of_gap c cs h1 h2', ih h3]
    rfl

theorem findNextItem_render (g : List Char) (it : SqlItem) (rest : List Char)
    (hg : gapOk g (some (itemHead it)) = true)
    (hit : itemOk it rest.head? = true) :
    findNextItem (g ++ (itemText it ++ rest)) = some (g, it, rest) := by
  induction g with
  | nil =>
    rw [List.nil_append]
    have hmain := tryItemAt_itemText it rest hit
    cases hsh : itemText it ++ rest with
    | nil =>
      exfalso
      have := itemText_length_pos it
      have : 1 ≤ (itemText it ++ rest).length := by simp; omega
      rw [hsh] at this
      simp at this
    | cons x xs =>
      rw [hsh] at hmain
      rw [findNextItem, hmain]
  | cons c g' ih =>
    rw [gapOk] at hg
    simp only [Bool.and_eq_true] at hg
    obtain ⟨⟨h1, h2⟩, h3⟩ := hg
    have h2' : pairOk c ((g' ++ (itemText it ++ rest)).head?) = true := by
      cases g' with
      | nil =>
        rw [List.nil_append, itemText_append_head]
        simpa [Option.or] using h2
      | cons d g'' => simpa [Option.or] using h2
    rw [List.cons_append, findNextItem,
      tryItemAt_none_of_gap c _ h1 h2', ih h3]
    rfl

theorem renderSegs_cons (g : List Char) (it : SqlItem)
    (rest : List (List Char × SqlItem)) (gl : List Char) :
    renderSegs ((g, it) :: rest) gl = g ++ (itemText it ++ renderSegs rest gl) := by
  rw [renderSegs, List.append_assoc]

theorem preprocess_internalF_segments (actions : SqlPreprocessorActions)
    (si : Bool) (segs : List (List Char × SqlItem)) :
    ∀ (gl : List Char) (named : NamedParams) (indexed : IndexedParams)
      (pi fuel : ℕ),
      segsOk segs gl = true → (renderSegs segs gl).length ≤ fuel →
      preprocess_internalF actions false si fuel (renderSegs segs gl) named indexed pi
        = specRender actions si segs gl named indexed pi := by
  induction segs with
  | nil =>
    intro gl named indexed pi fuel hwf hfuel
    rw [renderSegs, specRender]
    have hfind : findNextItem gl = none :=
      findNextItem_of_gapOk_none gl (by rw [segsOk] at hwf; exact hwf)
    cases fuel with
    | zero => rw [preprocess_internalF]
    | succ f => rw [preprocess_internalF, hfind]
  | cons seg rest ih =>
    obtain ⟨g, it⟩ := seg
    intro gl named indexed pi fuel hwf hfuel
    rw [segsOk] at hwf
    simp only [Bool.and_eq_true] at hwf
    obtain ⟨⟨hg, hio⟩, hrest⟩ := hwf
    have hlen : (renderSegs ((g, it) :: rest) gl).length
        = g.length + ((itemText it).length + (renderSegs rest gl).length) := by
      rw [renderSegs_cons]
      simp
    have hit1 := itemText_length_pos it
    cases fuel with
    | zero =>
      exfalso
      rw [hlen] at hfuel
      omega
    | succ f =>
      have hfuel' : (renderSegs rest gl).length ≤ f := by
        rw [hlen] at hfuel
        omega
      have hfind := findNextItem_render g it (renderSegs rest gl) hg hio
      rw [renderSegs_cons, preprocess_internalF, hfind]
      cases it with
      | iparam ds =>
        rw [specRender]
        simp only [specStep, if_pos rfl]
        by_cases hc : (si && (indexedFind indexed (digitsVal ds)).isSome) = true
        · simp only [hc, if_true, ih gl named indexed pi f hrest hfuel']
        · simp only [Bool.not_eq_true] at hc
          simp only [hc, Bool.false_eq_true, if_false,
            ih gl named (indexedPushSlot indexed (digitsVal ds) pi) (pi + 1) f
              hrest hfuel', if_true]
      | nparam sg w =>
        rw [specRender]
        simp only [specStep, if_pos rfl]
        by_cases hc : (si && (namedFind named (sg :: w)).isSome) = true
        · simp only [hc, if_true, ih gl named indexed pi f hrest hfuel']
        · simp only [Bool.not_eq_true] at hc
          simp only [hc, Bool.false_eq_true, if_false,
            ih gl (namedPushSlot named (sg :: w) pi) indexed (pi + 1) f
              hrest hfuel', if_true]
      | dquote b =>
        rw [specRender]
        simp only [specStep, ih gl named indexed pi f hrest hfuel']
      | squote b =>
        rw [specRender]
        simp only [specStep, ih gl named indexed pi f hrest hfuel']
      | bcomment b =>
        rw [specRender]
        simp only [specStep, ih gl named indexed pi f hrest hfuel']
      | ifseq ws n o => simp [itemOk] at hio
      | seqnext ws n o => simp [itemOk] at hio
      | lcomment b => simp [itemOk] at hio

/-- C1: for every SQL text described by a well-formed segment list — plain
text, single-quoted strings, double-quoted strings, block comments, indexed
and named placeholders — preprocessing with
`use_native_parameter_syntax = false` yields exactly the spec-side
rendering: gaps and every quoted-string/comment region appear in the output
byte-identically (placeholder-shaped text inside them is never treated as a
placeholder), every placeholder occurrence outside them is replaced by the
backend callback's rendering under the slot-allocation policy, and
`do_for_param_indexes` on the resulting maps yields each recorded
identifier's slot list in recorded order. -/
theorem preprocess_replaces_placeholders_outside_literals
    (actions : SqlPreprocessorActions) (supports_indexed_params : Bool)
    (segs : List (List Char × SqlItem)) (gl : List Char)
    (hwf : segsOk segs gl = true) :
    preprocess (renderSegs segs gl) false supports_indexed_params actions
      = specRender actions supports_indexed_params segs gl [] [] 1
    ∧ (∀ (u : ℕ) (slots : List ℕ),
        indexedFind
          (preprocess (renderSegs segs gl) false supports_indexed_params actions).2.2.1
          u = some slots →
        do_for_param_indexes false
          (preprocess (renderSegs segs gl) false supports_indexed_params actions).2.1
          (preprocess (renderSegs segs gl) false supports_indexed_params actions).2.2.1
          (.index u) = .ok slots)
    ∧ (∀ (p : List Char) (slots : List ℕ),
        namedFind
          (preprocess (renderSegs segs gl) false supports_indexed_params actions).2.1
          p = some slots →
        do_for_param_indexes false
          (preprocess (renderSegs segs gl) false supports_indexed_params actions).2.1
          (preprocess (renderSegs segs gl) false supports_indexed_params actions).2.2.1
          (.name p) = .ok slots) := by
  refine ⟨?_, ?_, ?_⟩
  · rw [preprocess]
    exact preprocess_internalF_segments actions supports_indexed_params segs gl
      [] [] 1 _ hwf le_rfl
  · intro u slots h
    unfold do_for_param_indexes
    simp [h]
  · intro p slots h
    unfold do_for_param_indexes
    simp [h]

/-- Witness for C1: the test suite's flagship example `test '?1 ?2'` is
returned byte-identically with empty maps (placeholders inside the quoted
string are not substituted), and on `test ?1` the placeholder is rendered
and its slot is recovered by `do_for_param_indexes`. -/
theorem preprocess_replaces_placeholders_outside_literals_witness :
    preprocess "test '?1 ?2'".toList false false testActions
      = ("test '?1 ?2'".toList, [], [], 1)
    ∧ do_for_param_indexes false
        (preprocess "test ?1".toList false false testActions).2.1
        (preprocess "test ?1".toList false false testActions).2.2.1
        (.index 1) = .ok [1] := by
  constructor
  · exact ((preprocess_replaces_placeholders_outside_literals testActions false
      [("test ".toList, .squote "?1 ?2".toList)] [] (by decide)).1).trans (by decide)
  · exact (preprocess_replaces_placeholders_outside_literals testActions false
      [("test ".toList, .iparam ['1'])] [] (by decide)).2.1 1 [1] (by decide)

/-- C2 counterexample: on `?1 ?1` with coalescing enabled the identifier's
map entry holds only the slot of the first occurrence — `[(1, [1])]`, a
single-element slot list after two occurrences — while the second
occurrence merely re-renders slot 1 in the output; the claim's "slot list
grows by one entry per occurrence" (which would give two entries) is
false. -/
theorem preprocess_coalescing_map_entry_not_grown :
    (preprocess "?1 ?1".toList false true slotActions).2.2.1 = [(1, [1])]
    ∧ (preprocess "?1 ?1".toList false true slotActions).1 = "$1 $1".toList := by
  exact ⟨by decide, by decide⟩

/-- C2 (amended): when the same parameter identifier occurs twice outside
quotes (as the only placeholders) and `use_native_parameter_syntax = false`:
with `supports_indexed_param_coalescing = true`, one native slot is
allocated, both occurrences render that slot, and the identifier's map
entry records only the first occurrence's slot (a one-element list); with
it `false`, each occurrence allocates a distinct native slot and both
slots are recorded under the identifier in left-to-right order.  Stated
for an indexed and for a (case-insensitively equal) named identifier. -/
theorem preprocess_coalescing_policy (actions : SqlPreprocessorActions)
    (g1 g2 g3 ds1 ds2 w1 w2 : List Char) (sg1 sg2 : Char)
    (hwfI : segsOk [(g1, .iparam ds1), (g2, .iparam ds2)] g3 = true)
    (hsame : digitsVal ds1 = digitsVal ds2)
    (hwfN : segsOk [(g1, .nparam sg1 w1), (g2, .nparam sg2 w2)] g3 = true)
    (hci : ciEquiv (sg1 :: w1) (sg2 :: w2) = true) :
    preprocess (renderSegs [(g1, .iparam ds1), (g2, .iparam ds2)] g3)
        false true actions
      = (g1 ++ actions.append_index_param_to_sql ds1 1
          ++ (g2 ++ actions.append_index_param_to_sql ds2 1 ++ g3),
         [], [(digitsVal ds1, [1])], 2)
    ∧ preprocess (renderSegs [(g1, .iparam ds1), (g2, .iparam ds2)] g3)
        false false actions
      = (g1 ++ actions.append_index_param_to_sql ds1 1
          ++ (g2 ++ actions.append_index_param_to_sql ds2 2 ++ g3),
         [], [(digitsVal ds1, [1, 2])], 3)
    ∧ preprocess (renderSegs [(g1, .nparam sg1 w1), (g2, .nparam sg2 w2)] g3)
        false true actions
      = (g1 ++ actions.append_named_param_to_sql (sg1 :: w1) 1
          ++ (g2 ++ actions.append_index_param_to_sql (sg2 :: w2) 1 ++ g3),
         [((sg1 :: w1), [1])], [], 2)
    ∧ preprocess (renderSegs [(g1, .nparam sg1 w1), (g2, .nparam sg2 w2)] g3)
        false false actions
      = (g1 ++ actions.append_named_param_to_sql (sg1 :: w1) 1
          ++ (g2 ++ actions.append_named_param_to_sql (sg2 :: w2) 2 ++ g3),
         [((sg1 :: w1), [1, 2])], [], 3) := by
  have fI1 : indexedFind ([] : IndexedParams) (digitsVal ds1) = none := rfl
  have pI1 : indexedPushSlot [] (digitsVal ds1) 1 = [(digitsVal ds1, [1])] := rfl
  have fI2 : indexedFind [(digitsVal ds1, [1])] (digitsVal ds2) = some [1] := by
    rw [← hsame]
    simp [indexedFind, List.find?]
  have pI2 : indexedPushSlot [(digitsVal ds1, [1])] (digitsVal ds2) 2
      = [(digitsVal ds1, [1, 2])] := by
    rw [← hsame]
    simp [indexedPushSlot]
  have fN1 : namedFind ([] : NamedParams) (sg1 :: w1) = none := rfl
  have pN1 : namedPushSlot [] (sg1 :: w1) 1 = [((sg1 :: w1), [1])] := rfl
  have fN2 : namedFind [((sg1 :: w1), [1])] (sg2 :: w2) = some [1] := by
    simp [namedFind, List.find?, hci]
  have pN2 : namedPushSlot [((sg1 :: w1), [1])] (sg2 :: w2) 2
      = [((sg1 :: w1), [1, 2])] := by
    simp [namedPushSlot, hci]
  refine ⟨?_, ?_, ?_, ?_⟩
  · rw [preprocess, preprocess_internalF_segments actions true _ g3 [] [] 1 _ hwfI le_rfl]
    simp only [specRender, specStep, fI1, fI2, pI1, Option.isSome_none,
      Bool.and_false, Bool.false_eq_true, if_false, Option.isSome_some,
      Bool.and_true, if_true, Option.getD_some, List.headD_cons]
  · rw [preprocess, preprocess_internalF_segments actions false _ g3 [] [] 1 _ hwfI le_rfl]
    simp only [specRender, specStep, fI1, fI2, pI1, pI2, Bool.false_and,
      Bool.false_eq_true, if_false]
  · rw [preprocess, preprocess_internalF_segments actions true _ g3 [] [] 1 _ hwfN le_rfl]
    simp only [specRender, specStep, fN1, fN2, pN1, Option.isSome_none,
      Bool.and_false, Bool.false_eq_true, if_false, Option.isSome_some,
      Bool.and_true, if_true, Option.getD_some, List.headD_cons]
  · rw [preprocess, preprocess_internalF_segments actions false _ g3 [] [] 1 _ hwfN le_rfl]
    simp only [specRender, specStep, fN1, fN2, pN1, pN2, Bool.false_and,
      Bool.false_eq_true, if_false]

/-- Witness for C2 (amended): `a ?7 ?7` with coalescing renders slot 1
twice and records `7 ↦ [1]`; `a :x :X` without coalescing allocates slots
1 and 2, recorded in order under the first-seen spelling `:x`. -/
theorem preprocess_coalescing_policy_witness :
    preprocess "a ?7 ?7".toList false true slotActions
      = ("a $1 $1".toList, [], [(7, [1])], 2)
    ∧ preprocess "a :x :X".toList false false slotActions
      = ("a $1 $2".toList, [([':', 'x'], [1, 2])], [], 3) := by
  constructor
  · exact ((preprocess_coalescing_policy slotActions "a ".toList " ".toList []
      ['7'] ['7'] ['x'] ['X'] ':' ':'
      (by decide) (by decide) (by decide) (by decide)).1).trans (by decide)
  · exact ((preprocess_coalescing_policy slotActions "a ".toList " ".toList []
      ['7'] ['7'] ['x'] ['X'] ':' ':'
      (by decide) (by decide) (by decide) (by decide)).2.2.2).trans (by decide)

/-- Witness for C9 at concrete statement states: an exhausted SQLite
statement, the fresh PostgreSQL statement, and an executed PostgreSQL
statement with one data row. -/
theorem statement_sequencing_enforced_witness :
    sqlite_fetch ⟨true, false, .done, false, []⟩ =
      .error (.wrongSeq "Fetch after data end")
    ∧ pg_fetch pgInitial = .error (.wrongSeq "Statement doesn't contain data")
    ∧ pg_fetch (pg_execute 1 pgInitial) =
        .ok (true, ⟨.executed, false, true, 0⟩) :=
  ⟨statement_sequencing_enforced.1 ⟨true, false, .done, false, []⟩ rfl rfl rfl,
   statement_sequencing_enforced.2.1 pgInitial rfl rfl,
   (statement_sequencing_enforced.2.2.2.2.1 pgInitial 1 (by decide)).2.1⟩

end Dblib
